import Mathlib

set_option maxHeartbeats 1600000
set_option maxRecDepth 4096
set_option synthInstance.maxSize 1024

/-!
Shallow embedding of the openclaw-pageindex document tree builder and
reasoning search engine (parsers.ts, llm.ts, types.ts, index.ts), together
with theorems checking the specification's claims against it.

JavaScript strings are modelled as lists of characters (`Str`); the
builtin string operations used by the source (`split`, `trim`,
`toLowerCase`, `includes`, `substring`, `lastIndexOf`, …) are modelled
below with their ECMAScript semantics on this representation.  `Date.now()`
is an external input and is threaded through as an explicit `now : Nat`
parameter wherever the source calls it.  Floating-point relevance scores
are modelled as exact rationals: every score in the program is a small
fraction `matchCount / keywordCount` (or the constant 0.8), where the
IEEE-754 rounding of the quotients cannot reorder or collapse distinct
values, so the rational model is faithful.
-/

/-- JavaScript strings, modelled as lists of characters. -/
abbrev Str : Type := List Char

/-- Embed a Lean string literal into the character-list model. -/
def str (s : String) : Str := s.toList

/-- Character class of the ECMAScript regular-expression class `\s` and of
the characters removed by `String.prototype.trim`, restricted to the ASCII
range (the unicode space characters play no role in any claim). -/
def jsWs (c : Char) : Bool :=
  c = ' ' || c = '\t' || c = '\n' || c = '\r' || c = '\x0b' || c = '\x0c'

/-- Model of `String.prototype.toLowerCase` (ASCII range). -/
def toLowerStr (s : Str) : Str := s.map Char.toLower

/-- Model of `String.prototype.toUpperCase` (ASCII range). -/
def toUpperStr (s : Str) : Str := s.map Char.toUpper

/-- Model of `String.prototype.trim`: whitespace stripped from both ends. -/
def jsTrim (s : Str) : Str :=
  ((s.dropWhile jsWs).reverse.dropWhile jsWs).reverse

/-- Model of `String.prototype.split` with a one-character separator (also
covers the regular expressions `/\f/` and `/\n/`): empty pieces are kept,
and the result is never empty. -/
def splitOnCharJs (sep : Char) : Str → List Str
  | [] => [[]]
  | c :: cs =>
    if c = sep then
      [] :: splitOnCharJs sep cs
    else
      match splitOnCharJs sep cs with
      | t :: ts => (c :: t) :: ts
      | [] => [[c]]

/-- Worker for `splitWsJs`: splits on maximal runs of `p`-characters.  The
boolean flag records whether we are inside a separator run whose piece has
already been emitted. -/
def splitRunsGo (p : Char → Bool) : Str → Str → Bool → List Str
  | [], cur, _ => [cur.reverse]
  | c :: cs, cur, skipping =>
    if p c then
      if skipping then splitRunsGo p cs cur skipping
      else cur.reverse :: splitRunsGo p cs [] true
    else splitRunsGo p cs (c :: cur) false

/-- Model of `String.prototype.split(/\s+/)`: splits on maximal whitespace
runs, keeping the empty pieces that ECMAScript produces at the two ends. -/
def splitWsJs (s : Str) : List Str := splitRunsGo jsWs s [] false

/-- Model of `String.prototype.includes` (substring containment). -/
def strContains : Str → Str → Bool
  | [], needle => needle.isPrefixOf ([] : Str)
  | c :: t, needle => needle.isPrefixOf (c :: t) || strContains t needle

/-- Model of `String.prototype.substring` on character indices (clamping
and argument-swapping as in ECMAScript). -/
def jsSubstring (s : Str) (a b : Nat) : Str :=
  (s.take (max a b)).drop (min a b)

/-- Model of `String.prototype.lastIndexOf(char, fromIndex)`: the largest
index `≤ fromIndex` holding the character, or `-1` when there is none. -/
def jsLastIndexOfChar (s : Str) (c : Char) (fromIdx : Nat) : Int :=
  let k := Nat.findGreatest (fun i => s.get? i = some c) fromIdx
  if s.get? k = some c then (k : Int) else -1

/-- Decimal rendering of a natural number (template-literal interpolation
of a JavaScript number). -/
def natStr (n : Nat) : Str := (toString n).toList

/-- Truthiness of an optional string, as JavaScript `if (x)`:
`undefined` and the empty string are falsy. -/
def optStrTruthy : Option Str → Bool
  | some s => !s.isEmpty
  | none => false

/-- Model of `Array.prototype.join(sep)`. -/
def joinWith (sep : Str) : List Str → Str
  | [] => []
  | [x] => x
  | x :: y :: rest => x ++ sep ++ joinWith sep (y :: rest)

/-- The `type` tag of a document node (types.ts `DocumentNode.type`). -/
inductive NodeType where
  | root | «section» | subsection | paragraph | list | code
deriving DecidableEq, Repr

/-- Per-node metadata (types.ts `DocumentNode.metadata`). -/
structure NodeMetadata where
  charCount : Nat
  wordCount : Nat
  position : Nat
deriving DecidableEq, Repr

/-- A document tree node (types.ts `DocumentNode`).  The fields are, in
order: `id`, `type`, `title?`, `content`, `level`, `pageNumber?`,
`children`, `metadata`. -/
inductive DocumentNode where
  | mk : Str → NodeType → Option Str → Str → Nat → Option Nat →
      List DocumentNode → NodeMetadata → DocumentNode

/-- Field accessor `id`. -/
def DocumentNode.id : DocumentNode → Str
  | .mk i _ _ _ _ _ _ _ => i

/-- Field accessor `type`. -/
def DocumentNode.type : DocumentNode → NodeType
  | .mk _ t _ _ _ _ _ _ => t

/-- Field accessor `title`. -/
def DocumentNode.title : DocumentNode → Option Str
  | .mk _ _ ti _ _ _ _ _ => ti

/-- Field accessor `content`. -/
def DocumentNode.content : DocumentNode → Str
  | .mk _ _ _ c _ _ _ _ => c

/-- Field accessor `level`. -/
def DocumentNode.level : DocumentNode → Nat
  | .mk _ _ _ _ l _ _ _ => l

/-- Field accessor `pageNumber`. -/
def DocumentNode.pageNumber : DocumentNode → Option Nat
  | .mk _ _ _ _ _ p _ _ => p

/-- Field accessor `children`. -/
def DocumentNode.children : DocumentNode → List DocumentNode
  | .mk _ _ _ _ _ _ ch _ => ch

/-- Field accessor `metadata`. -/
def DocumentNode.metadata : DocumentNode → NodeMetadata
  | .mk _ _ _ _ _ _ _ m => m

mutual
/-- Reading order of a tree: the node followed by its descendants, exactly
the order both `searchNodes` (llm.ts) and `flattenNode` visit nodes in. -/
def DocumentNode.preorder : DocumentNode → List DocumentNode
  | .mk i t ti c l p ch m => .mk i t ti c l p ch m :: preorderForest ch

/-- Reading order of a forest. -/
def preorderForest : List DocumentNode → List DocumentNode
  | [] => []
  | n :: rest => n.preorder ++ preorderForest rest
end

mutual
/-- Number of nodes of a tree (index.ts `countNodes`); used as a fuel
bound for the child-walking loop of `extractDocumentTitle`. -/
def countNodes : DocumentNode → Nat
  | .mk _ _ _ _ _ _ ch _ => 1 + countNodesList ch

/-- Number of nodes of a forest. -/
def countNodesList : List DocumentNode → Nat
  | [] => 0
  | n :: rest => countNodes n + countNodesList rest
end

/-- Model of `generateId` (parsers.ts): `node-` + the seed with every
non-alphanumeric character replaced by `-` + `-` + `Date.now()`. -/
def generateId (now : Nat) (seed : Str) : Str :=
  str "node-" ++ seed.map (fun c => if c.isAlphanum then c else '-') ++
    str "-" ++ natStr now

mutual
/-- Model of `findNodeById` (llm.ts): scan the forest in order; at each
node first test the node's own id, then search its children, then move on
to the remaining siblings. -/
def findNodeById : List DocumentNode → Str → Option DocumentNode
  | [], _ => none
  | n :: rest, targetId =>
    match findInNode n targetId with
    | some found => some found
    | none => findNodeById rest targetId

/-- One step of `findNodeById`: the node itself, then its children. -/
def findInNode : DocumentNode → Str → Option DocumentNode
  | .mk i t ti c l p ch m, targetId =>
    if i = targetId then some (.mk i t ti c l p ch m)
    else findNodeById ch targetId
end

/-- Model of `extractDocumentId` (llm.ts): the piece of the node id before
the first `-`, with JavaScript's `|| "unknown"` default on the empty
string. -/
def extractDocumentId (node : DocumentNode) : Str :=
  let headPart := (splitOnCharJs '-' node.id).headD []
  if headPart.isEmpty then str "unknown" else headPart

/-- Loop body of `extractDocumentTitle` (llm.ts).  The source walks
`current = current.children.find((c) => c.id === node.id)` until `current`
is a titled root or the walk stops.  Each step moves to a child of the
current node, so on the (acyclic, finite) trees of this program the loop
makes fewer than `countNodes` steps; the fuel parameter makes that
termination explicit without changing any reachable value. -/
def edtGo (targetId : Str) : Nat → DocumentNode → Str
  | 0, _ => str "Unknown Document"
  | fuel + 1, current =>
    if current.type = NodeType.root ∧ optStrTruthy current.title then
      current.title.getD []
    else
      match current.children.find? (fun c => decide (c.id = targetId)) with
      | some child => edtGo targetId fuel child
      | none => str "Unknown Document"

/-- Model of `extractDocumentTitle` (llm.ts). -/
def extractDocumentTitle (node : DocumentNode) : Str :=
  edtGo node.id (countNodes node) node

/-- Model of `extractExcerpt` (llm.ts), on the node's content string:
content returned unchanged when short enough, otherwise cut at
`lastIndexOf(" ", maxLength)` when that index is positive, else hard cut
at `maxLength`, with `"..."` appended. -/
def extractExcerpt (content : Str) (maxLength : Nat) : Str :=
  if content.length ≤ maxLength then content
  else
    let breakPoint := jsLastIndexOfChar content ' ' maxLength
    jsSubstring content 0 (if 0 < breakPoint then breakPoint.toNat else maxLength) ++
      str "..."

mutual
/-- Model of `flattenNode` (llm.ts, OpenClaw variant): each node renders an
indented `[ID: …]` tag line (with an optional `#`-marked title), its
content truncated to 500 characters, and then its children one level
deeper. -/
def flattenNode : DocumentNode → Nat → Str
  | .mk i t ti c l p ch m, depth =>
    (List.replicate depth (str "  ")).flatten ++ str "[ID: " ++ i ++ str "]" ++
      (match ti with
       | some title =>
         str " " ++ List.replicate l '#' ++ str " " ++ title ++ str "\n"
       | none => str "\n") ++
      (List.replicate depth (str "  ")).flatten ++ c.take 500 ++
      (if 500 < c.length then str "..." else []) ++ str "\n" ++
      flattenChildren ch (depth + 1)

/-- The concatenated renderings of a node list (the `for` loop over
`node.children` in `flattenNode`). -/
def flattenChildren : List DocumentNode → Nat → Str
  | [], _ => []
  | n :: rest, depth => flattenNode n depth ++ flattenChildren rest depth
end

/-- A search query (types.ts `SearchQuery`). -/
structure SearchQuery where
  query : Str
  maxResults : Option Nat := none
  threshold : Option ℚ := none
  collection : Option Str := none

/-- Model of `buildSearchContext` (llm.ts): flatten every tree of the
forest and join the parts with blank lines. -/
def buildSearchContext (documents : List DocumentNode) (_query : SearchQuery) : Str :=
  joinWith (str "\n\n") (documents.map (fun doc => flattenNode doc 0))

/-- Model of `buildSearchPrompt` (llm.ts): the fixed instruction template
around the query and the context truncated to 15000 characters. -/
def buildSearchPrompt (query context : Str) : Str :=
  str "You are a document search assistant for OpenClaw. Your task is to find the most relevant sections of documents for a given query.\n\nQUERY: " ++
    query ++ str "\n\nDOCUMENT CONTENT:\n" ++ context.take 15000 ++
    (if 15000 < context.length then str "...\n\n[Content truncated for brevity]" else []) ++
    str "\n\nINSTRUCTIONS:\n1. Read the query carefully\n2. Review the document content above\n3. Identify the most relevant sections that answer the query\n4. Return the node IDs of the most relevant sections, one per line\n5. Each node ID is marked with [ID: node-...] in the content\n6. Prioritize sections that directly answer the query\n7. Return ONLY node IDs, one per line, in order of relevance\n\nFormat: Return one node ID per line, starting with \"node-\""

/-- Model of `parseLLMResponse` (llm.ts): keep the trimmed response lines
that start with `node-`, in order. -/
def parseLLMResponse (response : Str) : List Str :=
  (splitOnCharJs '\n' response).filterMap (fun line =>
    let trimmed := jsTrim line
    if (str "node-").isPrefixOf trimmed then some trimmed else none)

/-- A citation attached to a search result (types.ts `SearchResult.citation`). -/
structure Citation where
  documentId : Str
  documentTitle : Str
  nodeId : Str
  «section» : Option Str
  pageNumber : Option Nat
  position : Nat
deriving DecidableEq

/-- A search result (types.ts `SearchResult`). -/
structure SearchResult where
  content : Str
  relevance : ℚ
  citation : Citation
  excerpt : Str
deriving DecidableEq

/-- The result record both search paths build for a matched node (the
object literal pushed in `searchWithLLM` and in `fallbackSearch`). -/
def mkSearchResult (node : DocumentNode) (relevance : ℚ) : SearchResult :=
  { content := node.content
    relevance := relevance
    citation :=
      { documentId := extractDocumentId node
        documentTitle := extractDocumentTitle node
        nodeId := node.id
        «section» := node.title
        pageNumber := node.pageNumber
        position := node.metadata.position }
    excerpt := extractExcerpt node.content 200 }

/-- Model of `query.maxResults || 10`: the default also fires on the falsy
value `0`. -/
def defaultedMaxResults (q : SearchQuery) : Nat :=
  match q.maxResults with
  | some m => if m = 0 then 10 else m
  | none => 10

/-- Matched-keyword count of one node in `fallbackSearch`:
`keywords.filter((kw) => contentLower.includes(kw)).length`. -/
def scoreNode (keywords : List Str) (node : DocumentNode) : Nat :=
  (keywords.filter (fun kw => strContains (toLowerStr node.content) kw)).length

/-- The optional result `fallbackSearch` pushes for one node: present
exactly when the matched-keyword count is positive, with relevance
`matchCount / keywords.length`. -/
def scoreEntry (keywords : List Str) (node : DocumentNode) : Option SearchResult :=
  if 0 < scoreNode keywords node then
    some (mkSearchResult node ((scoreNode keywords node : ℚ) / (keywords.length : ℚ)))
  else none

mutual
/-- Model of the recursive `searchNodes` closure in `fallbackSearch`: visit
each node, push its result if it matches, then descend into its children,
then continue with the remaining siblings. -/
def searchNodes (keywords : List Str) : List DocumentNode → List SearchResult
  | [] => []
  | n :: rest => searchInNode keywords n ++ searchNodes keywords rest

/-- One node of the `searchNodes` walk: its own optional result followed
by its descendants' results. -/
def searchInNode (keywords : List Str) : DocumentNode → List SearchResult
  | .mk i t ti c l p ch m =>
    (scoreEntry keywords (.mk i t ti c l p ch m)).toList ++ searchNodes keywords ch
end

/-- Insertion of one result into a descending-by-relevance list, placed
after every strictly more relevant entry and before equal ones. -/
def orderedInsertDesc (a : SearchResult) : List SearchResult → List SearchResult
  | [] => [a]
  | b :: l =>
    if b.relevance ≤ a.relevance then a :: b :: l
    else b :: orderedInsertDesc a l

/-- Model of `results.sort((a, b) => b.relevance - a.relevance)`:
`Array.prototype.sort` is stable, and a stable sort is uniquely determined
by its comparator, so this stable insertion sort computes the same list. -/
def insertionSortDesc : List SearchResult → List SearchResult
  | [] => []
  | a :: l => orderedInsertDesc a (insertionSortDesc l)

/-- Model of `fallbackSearch` (llm.ts): lower-case and whitespace-split the
query, score every node of the forest in reading order, sort the matches
by descending relevance (stable) and truncate. -/
def fallbackSearch (documents : List DocumentNode) (query : SearchQuery) :
    List SearchResult :=
  (insertionSortDesc
      (searchNodes (splitWsJs (toLowerStr query.query)) documents)).take
    (defaultedMaxResults query)

/-- Which vendor adapter a provider selects (types.ts `LLMProvider.api`). -/
inductive ApiKind where
  | anthropicMessages | openaiCompletions | googleGenerativeAi
deriving DecidableEq

/-- An LLM provider configuration (llm.ts `OpenClawLLMProvider`). -/
structure OpenClawLLMProvider where
  name : Str
  baseUrl : Option Str := none
  apiKey : Option Str := none
  model : Str
  api : Option ApiKind := none

/-- The ways the LLM path can fail: a missing credential, a rejected
custom-client promise, or a network/HTTP failure inside a vendor adapter. -/
inductive LLMFailure where
  | missingApiKey
  | clientRejected (message : Str)
  | httpError (message : Str)
deriving DecidableEq

/-- Model of `callOpenClawLLM` (llm.ts).  A supplied custom client is
called with the prompt and its settled outcome used verbatim; otherwise a
falsy `apiKey` throws, and else the chosen vendor adapter performs the
HTTP exchange, whose settled outcome (`response text` or a thrown error
for a network failure / non-2xx status) enters the model as the
`httpOutcome` parameter. -/
def callOpenClawLLM (prompt : Str) (provider : OpenClawLLMProvider)
    (customLLMClient : Option (Str → Except LLMFailure Str))
    (httpOutcome : Except LLMFailure Str) : Except LLMFailure Str :=
  match customLLMClient with
  | some client => client prompt
  | none =>
    if optStrTruthy provider.apiKey then httpOutcome
    else Except.error LLMFailure.missingApiKey

/-- Model of `searchWithLLM` (llm.ts): serialize the forest, build the
prompt, invoke the LLM; on success resolve each returned id in order,
keeping the found nodes as results with the fixed relevance 0.8 and
truncating; on any thrown error fall back to `fallbackSearch`. -/
def searchWithLLM (documents : List DocumentNode) (query : SearchQuery)
    (provider : OpenClawLLMProvider)
    (customLLMClient : Option (Str → Except LLMFailure Str))
    (httpOutcome : Except LLMFailure Str) : List SearchResult :=
  match callOpenClawLLM
      (buildSearchPrompt query.query (buildSearchContext documents query))
      provider customLLMClient httpOutcome with
  | Except.error _ => fallbackSearch documents query
  | Except.ok response =>
    ((parseLLMResponse response).filterMap (fun i =>
        (findNodeById documents i).map (fun node =>
          mkSearchResult node ((4 : ℚ) / 5)))).take
      (defaultedMaxResults query)

/-- Whether the part of a line after its leading `#` run completes a match
of the heading regex `/^(#{1,6})\s+(.+)$/` (parsers.ts `parseMarkdown`):
at least one whitespace character must follow the markers, and the `(.+)$`
group — the rest after the greedy `\s+` — must be non-empty and free of
characters that `.` cannot match (within a `split("\n")` line only `\r`). -/
def headingRestMatches (rest : Str) : Bool :=
  match rest with
  | [] => false
  | c :: _ =>
    jsWs c &&
      (let body := rest.dropWhile jsWs
       if body.isEmpty then
         decide (2 ≤ rest.length) && !decide (rest.getLast? = some '\r')
       else body.all (fun ch => !decide (ch = '\r')))

/-- Model of `line.match(/^(#{1,6})\s+(.+)$/)` returning the heading level
(count of `#` markers) and the trimmed title (the source applies `.trim()`
to the captured group, which equals trimming everything after the
markers). -/
def headingMatch (line : Str) : Option (Nat × Str) :=
  let count := (line.takeWhile (fun c => c = '#')).length
  let rest := line.drop count
  if 1 ≤ count ∧ count ≤ 6 ∧ headingRestMatches rest then
    some (count, jsTrim rest)
  else none

/-- A node with its heading level, as held on the parser stack
(`{ node, level }` in parsers.ts). -/
structure MDEntry where
  node : DocumentNode
  level : Nat

/-- Append a child to a node's `children` array. -/
def pushChildNode (parent child : DocumentNode) : DocumentNode :=
  match parent with
  | .mk i t ti c l p ch m => .mk i t ti c l p (ch ++ [child]) m

/-- Pop one stack entry into the entry below it.  The source mutates
shared node objects, so a popped node is already inside its parent's
`children`; this purely functional stack instead attaches a node to its
parent at pop time, which produces the same tree in the same child
order. -/
def attachTo (acc e : MDEntry) : MDEntry :=
  { node := pushChildNode e.node acc.node, level := e.level }

/-- Model of the pop loop
`while (stack.length > 0 && stack[stack.length-1].level >= level) stack.pop()`:
every entry whose level is `≥ lvl` is popped (each folding into the entry
below it), leaving the nearest strictly shallower entry on top. -/
def collapseWhile (lvl : Nat) (stack : List MDEntry) : List MDEntry :=
  match stack.takeWhile (fun e => decide (lvl ≤ e.level)),
      stack.dropWhile (fun e => decide (lvl ≤ e.level)) with
  | [], _ => stack
  | p :: ps, rest =>
    match rest with
    | [] => []
    | f :: rs => attachTo (ps.foldl attachTo p) f :: rs

/-- Collapse the whole stack down to its bottom (root) entry, completing
every pending parent link at end of input. -/
def collapseAll (stack : List MDEntry) : List MDEntry :=
  match stack with
  | [] => []
  | p :: ps => [ps.foldl attachTo p]

/-- The running state of `parseMarkdown`: the level-tagged stack, the
accumulated plain-text buffer, and the character position. -/
structure MDState where
  stack : List MDEntry
  currentContent : Str
  position : Nat

/-- Flushing of the accumulated text buffer as a paragraph child of the
stack top (`if (currentContent.trim()) { … }` in `parseMarkdown`).  When
the buffer trims to nothing it is kept, exactly as in the source. -/
def mdFlush (now : Nat) (st : MDState) : MDState :=
  if (jsTrim st.currentContent).isEmpty then st
  else
    match st.stack with
    | [] => st
    | top :: rest =>
      let contentNode : DocumentNode :=
        .mk (generateId now (str "content-" ++ natStr st.position))
          NodeType.paragraph none (jsTrim st.currentContent) (top.level + 1) none []
          ⟨st.currentContent.length, (splitWsJs st.currentContent).length, st.position⟩
      { stack := { node := pushChildNode top.node contentNode, level := top.level } :: rest
        currentContent := []
        position := st.position + st.currentContent.length }

/-- One line of the `parseMarkdown` scan: a heading line flushes the
buffer, pops same-or-deeper entries, and pushes the new heading node;
other lines accumulate into the buffer. -/
def mdStep (now : Nat) (st : MDState) (line : Str) : MDState :=
  match headingMatch line with
  | some (lvl, title) =>
    let st1 := mdFlush now st
    let headingNode : DocumentNode :=
      .mk (generateId now (str "heading-" ++ natStr st1.position))
        NodeType.«section» (some title) line lvl none []
        ⟨line.length, (splitWsJs line).length, st1.position⟩
    { stack := { node := headingNode, level := lvl } :: collapseWhile lvl st1.stack
      currentContent := st1.currentContent
      position := st1.position + line.length + 1 }
  | none => { st with currentContent := st.currentContent ++ line ++ [ '\n' ] }

/-- Model of `parseMarkdown` (parsers.ts), producing the document tree. -/
def parseMarkdownTree (now : Nat) (content : Str) : DocumentNode :=
  let root : DocumentNode :=
    .mk (str "root") NodeType.root none content 0 none []
      ⟨content.length, (splitWsJs content).length, 0⟩
  let final :=
    (splitOnCharJs '\n' content).foldl (mdStep now)
      { stack := [{ node := root, level := 0 }], currentContent := [], position := 0 }
  match collapseAll (mdFlush now final).stack with
  | [e] => e.node
  | _ => root

/-- The accumulator of the `parseText` line scan: collected paragraph
nodes, the pending paragraph buffer, and the character position. -/
structure TextAcc where
  children : List DocumentNode
  currentParagraph : Str
  position : Nat

/-- The paragraph node `parseText` pushes when a paragraph ends. -/
def textParagraphNode (now : Nat) (acc : TextAcc) : DocumentNode :=
  .mk (generateId now (str "paragraph-" ++ natStr acc.position))
    NodeType.paragraph none (jsTrim acc.currentParagraph) 1 none []
    ⟨acc.currentParagraph.length, (splitWsJs acc.currentParagraph).length, acc.position⟩

/-- One line of the `parseText` scan: blank lines flush the pending
paragraph (if it trims to something), other lines append to it with a
space. -/
def textStep (now : Nat) (acc : TextAcc) (line : Str) : TextAcc :=
  if (jsTrim line).isEmpty then
    if (jsTrim acc.currentParagraph).isEmpty then acc
    else
      { children := acc.children ++ [textParagraphNode now acc]
        currentParagraph := []
        position := acc.position + acc.currentParagraph.length }
  else { acc with currentParagraph := acc.currentParagraph ++ line ++ [ ' ' ] }

/-- Model of `parseText` (parsers.ts): paragraphs are runs of non-blank
lines, each a level-1 child of a single flat root. -/
def parseTextTree (now : Nat) (content : Str) : DocumentNode :=
  let acc := (splitOnCharJs '\n' content).foldl (textStep now) ⟨[], [], 0⟩
  let finalChildren :=
    if (jsTrim acc.currentParagraph).isEmpty then acc.children
    else acc.children ++ [textParagraphNode now acc]
  .mk (str "root") NodeType.root none content 0 none finalChildren
    ⟨content.length, (splitWsJs content).length, 0⟩

/-- The heading level a tag name selects in `parseHTML` (`h1` … `h6`). -/
def htmlHeadingLevel (tag : Str) : Option Nat :=
  if tag = str "h1" then some 1
  else if tag = str "h2" then some 2
  else if tag = str "h3" then some 3
  else if tag = str "h4" then some 4
  else if tag = str "h5" then some 5
  else if tag = str "h6" then some 6
  else none

/-- The running state of the `parseHTML` element walk. -/
structure HtmlState where
  stack : List MDEntry
  position : Nat

/-- One element of the `parseHTML` walk.  The element stream (lower-cased
tag name and extracted text, in document order) is produced by the
external cheerio library and enters the model as data.  Elements with no
non-whitespace text are skipped; headings use the same stack-pop
algorithm as Markdown; `p`/`div` elements become paragraph children of
the stack top; all other tags produce no node. -/
def htmlStep (now : Nat) (st : HtmlState) (el : Str × Str) : HtmlState :=
  let text := jsTrim el.2
  if text.isEmpty then st
  else
    match htmlHeadingLevel el.1 with
    | some level =>
      let headingNode : DocumentNode :=
        .mk (generateId now (str "heading-" ++ natStr st.position))
          NodeType.«section» (some text) text level none []
          ⟨text.length, (splitWsJs text).length, st.position⟩
      { stack := { node := headingNode, level := level } :: collapseWhile level st.stack
        position := st.position + text.length }
    | none =>
      if el.1 = str "p" ∨ el.1 = str "div" then
        match st.stack with
        | [] => { st with position := st.position + text.length }
        | top :: rest =>
          let pNode : DocumentNode :=
            .mk (generateId now (str "content-" ++ natStr st.position))
              NodeType.paragraph none text (top.level + 1) none []
              ⟨text.length, (splitWsJs text).length, st.position⟩
          { stack := { node := pushChildNode top.node pNode, level := top.level } :: rest
            position := st.position + text.length }
      else st

/-- Model of `parseHTML` (parsers.ts) over the cheerio-supplied element
stream; `fullText` is the document's whole extracted text (`$.text()`). -/
def parseHTMLTree (now : Nat) (fullText : Str) (elements : List (Str × Str)) :
    DocumentNode :=
  let root : DocumentNode :=
    .mk (str "root") NodeType.root none fullText 0 none []
      ⟨fullText.length, (splitWsJs fullText).length, 0⟩
  let final := elements.foldl (htmlStep now) { stack := [{ node := root, level := 0 }], position := 0 }
  match collapseAll final.stack with
  | [e] => e.node
  | _ => root

/-- Characters of the regular-expression class `[IVXLCDM]` under the `i`
flag. -/
def isRomanCi (c : Char) : Bool :=
  let u := c.toUpper
  u = 'I' || u = 'V' || u = 'X' || u = 'L' || u = 'C' || u = 'D' || u = 'M'

/-- Characters of `[A-Z]`. -/
def isCapCh (c : Char) : Bool := 'A' ≤ c && c ≤ 'Z'

/-- Match length at the start of `s` for a PDF chapter pattern of the form
`/\n\s*LIT\s+[CLASS]+\n/` with a case-insensitive literal (patterns 1, 2
and 4 of `parsePDF`).  The literal and the class characters are not
whitespace, so the greedy `\s*`/`\s+` consume exactly the maximal
whitespace runs and the match is deterministic. -/
def matchNlWsLitClassNl (lit : Str) (cls : Char → Bool) (s : Str) : Option Nat :=
  match s with
  | '\n' :: t =>
    let ws1 := t.takeWhile jsWs
    let r1 := t.drop ws1.length
    if toLowerStr (r1.take lit.length) = lit then
      let r2 := r1.drop lit.length
      let ws2 := r2.takeWhile jsWs
      if ws2.isEmpty then none
      else
        let r3 := r2.drop ws2.length
        let run := r3.takeWhile cls
        if run.isEmpty then none
        else if (r3.drop run.length).head? = some '\n' then
          some (1 + ws1.length + lit.length + ws2.length + run.length + 1)
        else none
    else none
  | _ => none

/-- Match length at the start of `s` for pattern 3 of `parsePDF`,
`/\n\s*#\s+[A-Z][A-Z\s]+\n/` (case-sensitive).  The class `[A-Z\s]`
contains `\n` itself, so the greedy run backtracks to the last newline
strictly inside it: the matched `[A-Z\s]+` part is the longest prefix of
the run that is followed by a newline and is non-empty. -/
def matchHashCaps (s : Str) : Option Nat :=
  match s with
  | '\n' :: t =>
    let ws1 := t.takeWhile jsWs
    let r1 := t.drop ws1.length
    match r1 with
    | '#' :: r2 =>
      let ws2 := r2.takeWhile jsWs
      if ws2.isEmpty then none
      else
        let r3 := r2.drop ws2.length
        match r3 with
        | c0 :: r4 =>
          if isCapCh c0 then
            let run := r4.takeWhile (fun c => isCapCh c || jsWs c)
            let k := Nat.findGreatest
              (fun k => 1 ≤ k ∧ run.get? k = some '\n') run.length
            if 1 ≤ k ∧ run.get? k = some '\n' then
              some (1 + ws1.length + 1 + ws2.length + 1 + (k + 1))
            else none
          else none
        | [] => none
    | _ => none
  | _ => none

/-- Worker for `scanSplit`, with fuel bounded by the string length (every
step either consumes a matched piece of length ≥ 1 or advances one
character, so the fuel is never exhausted on the initial call). -/
def scanSplitGo (m : Str → Option Nat) : Nat → Str → Str → List Str
  | _, [], cur => [cur.reverse]
  | 0, s, cur => [cur.reverse ++ s]
  | fuel + 1, c :: rest, cur =>
    match m (c :: rest) with
    | some len => cur.reverse :: scanSplitGo m fuel ((c :: rest).drop (max 1 len)) []
    | none => scanSplitGo m fuel rest (c :: cur)

/-- Model of `String.prototype.split(regex)` for the chapter patterns:
scan left to right, cut out each leftmost match, and keep the pieces in
between. -/
def scanSplit (m : Str → Option Nat) (s : Str) : List Str :=
  scanSplitGo m s.length s []

/-- The four chapter patterns of `parsePDF`, in source order:
`/\n\s*CHAPTER\s+[IVXLCDM]+\n/gi`, `/\n\s*Chapter\s+\d+\n/gi`,
`/\n\s*#\s+[A-Z][A-Z\s]+\n/g`, `/\n\s*Part\s+[IVXLCDM]+\n/gi`. -/
def chapterPatterns : List (Str → Option Nat) :=
  [matchNlWsLitClassNl (str "chapter") isRomanCi,
   matchNlWsLitClassNl (str "chapter") (fun c => c.isDigit),
   matchHashCaps,
   matchNlWsLitClassNl (str "part") isRomanCi]

/-- The pattern loop of strategy 3 in `parsePDF`: starting from the single
segment `[text]`, try each pattern in order and keep the first whose split
increases the number of segments. -/
def chapterSplitGo (text : Str) : List (Str → Option Nat) → List Str
  | [] => [text]
  | p :: ps =>
    let parts := scanSplit p text
    if 1 < parts.length then parts else chapterSplitGo text ps

/-- Strategy 3 of `parsePDF`: chapter-heading splits. -/
def chapterSplit (text : Str) : List Str :=
  chapterSplitGo text chapterPatterns

/-- Strategy 2 of `parsePDF`: `numpages` equal character slices of length
`floor(length / numpages)` (the remainder characters are dropped). -/
def equalSlices (text : Str) (numpages : Nat) : List Str :=
  let avgCharsPerPage := text.length / numpages
  (List.range numpages).map (fun i =>
    jsSubstring text (i * avgCharsPerPage) ((i + 1) * avgCharsPerPage))

/-- One line of the mechanical 5000-character re-split accumulator. -/
def resplitStep (st : List Str × Str × Nat) (line : Str) : List Str × Str × Nat :=
  let current := st.2.1 ++ line ++ [ '\n' ]
  let chars := st.2.2 + line.length + 1
  if 5000 ≤ chars then (st.1 ++ [jsTrim current], [], 0)
  else (st.1, current, chars)

/-- The final mechanical re-split of `parsePDF`: accumulate whole lines
until 5000 characters are reached, emitting a trimmed chunk at each
crossing, plus a final trimmed remainder when non-empty. -/
def resplit5000 (text : Str) : List Str :=
  let st := (splitOnCharJs '\n' text).foldl resplitStep ([], [], 0)
  if (jsTrim st.2.1).isEmpty then st.1 else st.1 ++ [jsTrim st.2.1]

/-- The page-splitting strategy cascade of `parsePDF`: form-feed markers,
else equal slices when more than one page is declared, else chapter
patterns; and afterwards the mechanical re-split when a single oversized
segment remains. -/
def pdfPageTexts (text : Str) (numpages : Nat) : List Str :=
  let pageTexts :=
    if strContains text (str "\x0c") then splitOnCharJs '\x0c' text
    else if 1 < numpages then equalSlices text numpages
    else chapterSplit text
  if pageTexts.length = 1 ∧ 5000 < (pageTexts.headD []).length then
    resplit5000 text
  else pageTexts

/-- Whether a trimmed line is accepted as a detected section title in
`parsePDF`: bounded length and either fully upper-case or matching
`/^(CHAPTER|Chapter|Part|#|\d+\.)\s+/`. -/
def pdfTitleLineOk (trimmed : Str) : Bool :=
  decide (3 < trimmed.length) && decide (trimmed.length < 100) &&
    (decide (trimmed = toUpperStr trimmed) ||
      pdfTitlePrefixTest trimmed)
where
  startsWithThenWs (lit : Str) (s : Str) : Bool :=
    lit.isPrefixOf s &&
      (match (s.drop lit.length).head? with
       | some c => jsWs c
       | none => false)
  pdfTitlePrefixTest (s : Str) : Bool :=
    startsWithThenWs (str "CHAPTER") s || startsWithThenWs (str "Chapter") s ||
    startsWithThenWs (str "Part") s || startsWithThenWs (str "#") s ||
    (let d := s.takeWhile Char.isDigit
     !d.isEmpty &&
       (match s.drop d.length with
        | '.' :: c :: _ => jsWs c
        | _ => false))

/-- The best-effort title of a PDF slice: the first of the slice's first
five lines whose trimmed text passes `pdfTitleLineOk`, else `Section N`. -/
def pdfTitleFor (index : Nat) (pageText : Str) : Str :=
  match ((splitOnCharJs '\n' (jsTrim pageText)).take 5).find?
      (fun line => pdfTitleLineOk (jsTrim line)) with
  | some line => jsTrim line
  | none => str "Section " ++ natStr (index + 1)

/-- The section-node construction loop of `parsePDF`: slices that trim to
nothing are skipped (their index still advances, their position does
not). -/
def pdfSectionsGo : Nat → Nat → List Str → List DocumentNode
  | _, _, [] => []
  | index, position, pageText :: rest =>
    if (jsTrim pageText).isEmpty then pdfSectionsGo (index + 1) position rest
    else
      DocumentNode.mk (str "section-" ++ natStr (index + 1)) NodeType.«section»
          (some (pdfTitleFor index pageText)) (jsTrim pageText) 1 (some (index + 1)) []
          ⟨pageText.length, (splitWsJs pageText).length, position⟩ ::
        pdfSectionsGo (index + 1) (position + pageText.length) rest

/-- Model of the tree `parsePDF` builds from the extracted text and the
declared page count (the `pdf-parse` extraction itself is an external
collaborator whose output enters the model as data). -/
def parsePDFTree (text : Str) (numpages : Nat) : DocumentNode :=
  .mk (str "root") NodeType.root none text 0 none
    (pdfSectionsGo 0 0 (pdfPageTexts text numpages))
    ⟨text.length, (splitWsJs text).length, 0⟩

/-- The document format tag (types.ts `ParsedDocument.type`). -/
inductive DocType where
  | pdf | markdown | html | text
deriving DecidableEq, Repr

/-- The value each format parser returns (parsers.ts
`PartialParsedDocument`). -/
structure PartialParsedDocument where
  type : DocType
  tree : DocumentNode
  totalPages : Option Nat
  totalChars : Nat
  totalWords : Nat

/-- `parseMarkdown` as a whole. -/
def parseMarkdownPartial (now : Nat) (content : Str) : PartialParsedDocument :=
  { type := DocType.markdown, tree := parseMarkdownTree now content,
    totalPages := none, totalChars := content.length,
    totalWords := (splitWsJs content).length }

/-- `parseText` as a whole. -/
def parseTextPartial (now : Nat) (content : Str) : PartialParsedDocument :=
  { type := DocType.text, tree := parseTextTree now content,
    totalPages := none, totalChars := content.length,
    totalWords := (splitWsJs content).length }

/-- `parseHTML` as a whole. -/
def parseHTMLPartial (now : Nat) (fullText : Str) (elements : List (Str × Str)) :
    PartialParsedDocument :=
  { type := DocType.html, tree := parseHTMLTree now fullText elements,
    totalPages := none, totalChars := fullText.length,
    totalWords := (splitWsJs fullText).length }

/-- `parsePDF` as a whole (`totalPages` is `data.numpages ||
pageTexts.length`). -/
def parsePDFPartial (text : Str) (numpages : Nat) : PartialParsedDocument :=
  { type := DocType.pdf, tree := parsePDFTree text numpages,
    totalPages := some (if numpages = 0 then (pdfPageTexts text numpages).length
      else numpages),
    totalChars := text.length, totalWords := (splitWsJs text).length }

/-- A parsed document (types.ts `ParsedDocument`, with its aggregate
metadata flattened into fields and `createdAt` as an epoch timestamp). -/
structure ParsedDocument where
  id : Str
  source : Str
  title : Str
  createdAt : Nat
  type : DocType
  tree : DocumentNode
  totalPages : Option Nat
  totalChars : Nat
  totalWords : Nat

/-- A thrown JavaScript error reaching `parseDocument`: an I/O failure of
`fs.readFile` or a failure inside the external `pdf-parse` library. -/
inductive JsError where
  | ioError (message : Str)
  | pdfError (message : Str)
deriving DecidableEq

/-- The external inputs of one `parseDocument` call: the clock, the
settled outcome of reading the source file, the settled outcome of
`pdf-parse` (extracted text and page count), and the cheerio view of an
HTML document. -/
structure ParseEnv where
  now : Nat
  fileRead : Except JsError Str
  pdfData : Except JsError (Str × Nat)
  htmlText : Str
  htmlElements : List (Str × Str)

/-- Model of `path.extname` (posix): the suffix of the basename from its
last `.`, empty when the basename has no `.` past its first character. -/
def jsExtname (source : Str) : Str :=
  let base := (splitOnCharJs '/' source).getLastD []
  let i := jsLastIndexOfChar base '.' base.length
  if 0 < i then base.drop i.toNat else []

/-- Model of `path.basename` (posix). -/
def jsBasename (source : Str) : Str :=
  (splitOnCharJs '/' source).getLastD []

/-- Model of `parseDocument` (parsers.ts): select the parser from the
extension (or treat supplied truthy content as text), read the file when
no content was supplied, and assemble the `ParsedDocument`; any thrown
error (unreadable file, `pdf-parse` failure) propagates. -/
def parseDocument (source : Str) (content : Option Str) (env : ParseEnv) :
    Except JsError ParsedDocument := do
  let contentTruthy := optStrTruthy content
  let ext := if contentTruthy then str "text" else toLowerStr (jsExtname source)
  let docContent ← if contentTruthy then pure (content.getD []) else env.fileRead
  let part ←
    if ext = str ".pdf" then do
      let (t, n) ← env.pdfData
      pure (parsePDFPartial t n)
    else if ext = str ".md" ∨ ext = str ".markdown" then
      pure (parseMarkdownPartial env.now docContent)
    else if ext = str ".html" ∨ ext = str ".htm" then
      pure (parseHTMLPartial env.now env.htmlText env.htmlElements)
    else
      pure (parseTextPartial env.now docContent)
  pure
    { id := generateId env.now source
      source := source
      title :=
        match part.tree.title with
        | some t => if t.isEmpty then jsBasename source else t
        | none => jsBasename source
      createdAt := env.now
      type := part.type
      tree := part.tree
      totalPages := part.totalPages
      totalChars := part.totalChars
      totalWords := part.totalWords }

/-- The mutable state of a `PageIndex` instance: the insertion-ordered
document map and the forest of document roots. -/
structure IndexState where
  documents : List (Str × ParsedDocument)
  nodes : List DocumentNode

/-- Model of `Map.prototype.set`: replace in place when the key exists,
else append. -/
def mapSet (m : List (Str × ParsedDocument)) (k : Str) (v : ParsedDocument) :
    List (Str × ParsedDocument) :=
  if m.any (fun kv => decide (kv.1 = k)) then
    m.map (fun kv => if kv.1 = k then (k, v) else kv)
  else m ++ [(k, v)]

/-- Model of `PageIndex.addDocument`: parse, then record the document and
push its root onto the forest.  When parsing throws, the exception
propagates before either mutation runs, so the state is returned
unchanged. -/
def addDocument (st : IndexState) (source : Str) (content : Option Str)
    (env : ParseEnv) : IndexState × Except JsError Str :=
  match parseDocument source content env with
  | Except.error e => (st, Except.error e)
  | Except.ok doc =>
    ({ documents := mapSet st.documents doc.id doc, nodes := st.nodes ++ [doc.tree] },
      Except.ok doc.id)

/-- Substring-occurrence as a proposition: `a` occurs contiguously inside
`b`. -/
def ChunkIn (a b : Str) : Prop := ∃ p q, b = p ++ a ++ q

/-- The identifier tag `flattenNode` emits for a node id. -/
def idTag (i : Str) : Str := str "[ID: " ++ i ++ str "]"

/-- The descending-relevance comparator order used by both search paths'
final `sort`. -/
def relDesc (a b : SearchResult) : Prop := b.relevance ≤ a.relevance

/-- Written from the claim's words, for comparison with `extractExcerpt`:
the largest index at or before `cap` holding a whitespace character. -/
def lastWsAtOrBefore (content : Str) (cap : Nat) : Option Nat :=
  let k := Nat.findGreatest (fun i => (content.get? i).any jsWs) cap
  if (content.get? k).any jsWs then some k else none

/-- Written from the claim's words, for comparison with `extractExcerpt`:
return short content unchanged, else cut at the last whitespace at or
before the cap with an ellipsis appended, falling back to a hard cut at
the cap when no whitespace exists in that range. -/
def claimedWhitespaceExcerpt (content : Str) (cap : Nat) : Str :=
  if content.length ≤ cap then content
  else
    match lastWsAtOrBefore content cap with
    | some k => content.take k ++ str "..."
    | none => content.take cap ++ str "..."

/-- The largest positive index at or before `cap` holding a space
character; the characterization `extractExcerpt`'s soft cut actually
satisfies. -/
def lastSpacePos (content : Str) (cap : Nat) : Option Nat :=
  let k := Nat.findGreatest (fun i => 0 < i ∧ content.get? i = some ' ') cap
  if 0 < k ∧ content.get? k = some ' ' then some k else none

/-- A 251-character content whose only whitespace in the cut range is the
tab at index 100: the claimed whitespace rule and the implemented
space-only rule disagree here. -/
def c7TabContent : Str := List.replicate 100 'a' ++ '\t' :: List.replicate 150 'b'

/-- A 251-character content with a space at index 150, exercising the soft
cut. -/
def c7SpaceContent : Str := List.replicate 150 'a' ++ ' ' :: List.replicate 100 'b'

/-- The two-paragraph plain-text scenario document of the spec: only the
second paragraph contains both words of the query `second section`. -/
def c5Doc : Str := str "alpha beta\n\nthe second section here"

/-- The tree `parseText` builds for the scenario document (clock fixed at
0). -/
def c5Tree : DocumentNode := parseTextTree 0 c5Doc

/-- The scenario query. -/
def c5Query : SearchQuery := { query := str "second section" }

/-- The Markdown scenario input of the spec. -/
def mdScenarioInput : Str := str "# A\n\ntext1\n\n## B\n\ntext2\n\n# C\n\ntext3"

/-- The tree `parseMarkdown` builds for the scenario input (clock fixed at
0). -/
def mdScenarioTree : DocumentNode := parseMarkdownTree 0 mdScenarioInput

/-- The per-node view compared in the Markdown scenario: type, title,
content, level. -/
def nodeView (n : DocumentNode) : NodeType × Option Str × Str × Nat :=
  (n.type, n.title, n.content, n.level)

/-- Shared metadata for the hand-built example nodes. -/
def exMeta : NodeMetadata := ⟨1, 1, 0⟩

/-- A section node whose tree root carries a title. -/
def c8Child : DocumentNode :=
  .mk (str "node-sec-1") NodeType.«section» (some (str "Intro"))
    (str "intro text") 1 none [] exMeta

/-- A titled root owning `c8Child`. -/
def c8Root : DocumentNode :=
  .mk (str "root") NodeType.root (some (str "My Document")) (str "body") 0 none
    [c8Child] exMeta

/-- A small stand-alone node used to instantiate the universally
quantified theorems. -/
def wNode : DocumentNode :=
  .mk (str "node-a-1") NodeType.paragraph none (str "hello world") 1 none [] exMeta

/-- A provider with no credential (its `apiKey` is absent, so the direct
API path throws before any network call). -/
def wProviderNoKey : OpenClawLLMProvider :=
  { name := str "test", model := str "test-model" }

/-- A parse environment whose file read fails. -/
def wFailEnv : ParseEnv :=
  { now := 0
    fileRead := Except.error (JsError.ioError (str "ENOENT"))
    pdfData := Except.error (JsError.ioError (str "ENOENT"))
    htmlText := []
    htmlElements := [] }

/-- An index state holding one already-indexed document, used to observe
that a failing `addDocument` leaves it untouched. -/
def wIndexState : IndexState :=
  { documents := [(str "node-d-0",
      { id := str "node-d-0", source := str "d"
        title := str "d", createdAt := 0, type := DocType.text
        tree := wNode, totalPages := none, totalChars := 11, totalWords := 2 })]
    nodes := [wNode] }

/-- The invariant of the Markdown/HTML parser stack used to identify the
returned root: the bottom entry is the level-0 root node. -/
def StackOk (s : List MDEntry) : Prop :=
  ∃ pre e0, s = pre ++ [e0] ∧ e0.node.id = str "root" ∧ e0.level = 0

/-- Lemmas about the string model. -/
theorem splitOnCharJs_length (sep : Char) (s : Str) :
    (splitOnCharJs sep s).length = s.countP (fun c => decide (c = sep)) + 1 := by
  induction s with
  | nil => simp [splitOnCharJs]
  | cons c cs ih =>
    by_cases h : c = sep
    · simp [splitOnCharJs, h, List.countP_cons, ih]
    · simp only [splitOnCharJs, if_neg h]
      rcases he : splitOnCharJs sep cs with _ | ⟨t, ts⟩
      · simp [he] at ih
      · rw [he] at ih
        simp only [List.length_cons] at ih ⊢
        simpa [List.countP_cons, h] using ih

theorem countP_pos_of_strContains_single {s : Str} {c : Char}
    (h : strContains s [c] = true) :
    0 < s.countP (fun x => decide (x = c)) := by
  induction s with
  | nil => simp [strContains, List.isPrefixOf] at h
  | cons a t ih =>
    rw [strContains] at h
    rcases Bool.or_eq_true_iff.mp h with h1 | h2
    · have : c = a := by
        by_contra hne
        simp [List.isPrefixOf, beq_iff_eq, hne] at h1
      subst this
      simp [List.countP_cons]
    · have := ih h2
      simp only [List.countP_cons]
      omega

theorem splitOnCharJs_two_le_of_contains {s : Str} {c : Char}
    (h : strContains s [c] = true) :
    2 ≤ (splitOnCharJs c s).length := by
  have := countP_pos_of_strContains_single h
  rw [splitOnCharJs_length]
  omega

theorem equalSlices_length (text : Str) (n : Nat) :
    (equalSlices text n).length = n := by
  simp [equalSlices]

/-- C1.  For every forest and query, whenever the LLM invocation settles
in an error — a rejecting custom client, a missing `apiKey`, or a thrown
network/HTTP failure inside a vendor adapter — `searchWithLLM` returns
exactly the list that the keyword scorer `fallbackSearch` produces for the
same forest and query, and no error escapes to the caller. -/
theorem searchWithLLM_error_falls_back (documents : List DocumentNode)
    (query : SearchQuery) (provider : OpenClawLLMProvider)
    (customLLMClient : Option (Str → Except LLMFailure Str))
    (httpOutcome : Except LLMFailure Str) (e : LLMFailure)
    (h : callOpenClawLLM
        (buildSearchPrompt query.query (buildSearchContext documents query))
        provider customLLMClient httpOutcome = Except.error e) :
    searchWithLLM documents query provider customLLMClient httpOutcome =
      fallbackSearch documents query := by
  unfold searchWithLLM
  rw [h]

/-- Witness for C1: with no custom client and no `apiKey` the call throws
`missingApiKey`, and the search returns the keyword results. -/
theorem searchWithLLM_error_falls_back_witness :
    callOpenClawLLM
        (buildSearchPrompt (str "x") (buildSearchContext [wNode] ⟨str "x", none, none, none⟩))
        wProviderNoKey none (Except.ok []) = Except.error LLMFailure.missingApiKey ∧
      searchWithLLM [wNode] ⟨str "x", none, none, none⟩ wProviderNoKey none (Except.ok []) =
        fallbackSearch [wNode] ⟨str "x", none, none, none⟩ :=
  ⟨rfl, searchWithLLM_error_falls_back [wNode] ⟨str "x", none, none, none⟩
    wProviderNoKey none (Except.ok []) LLMFailure.missingApiKey rfl⟩

/-- C9.  If parsing the source fails, `addDocument` surfaces the error and
the index state is unchanged: no document-map entry and no forest root is
added for the failed source. -/
theorem addDocument_error_leaves_state (st : IndexState) (source : Str)
    (content : Option Str) (env : ParseEnv) (e : JsError)
    (h : parseDocument source content env = Except.error e) :
    addDocument st source content env = (st, Except.error e) := by
  unfold addDocument
  rw [h]

/-- Witness for C9: an unreadable file makes `parseDocument` throw and
`addDocument` returns the prior state with the error. -/
theorem addDocument_error_leaves_state_witness :
    parseDocument (str "missing.txt") none wFailEnv =
        Except.error (JsError.ioError (str "ENOENT")) ∧
      addDocument wIndexState (str "missing.txt") none wFailEnv =
        (wIndexState, Except.error (JsError.ioError (str "ENOENT"))) :=
  ⟨rfl, addDocument_error_leaves_state wIndexState (str "missing.txt") none wFailEnv
    (JsError.ioError (str "ENOENT")) rfl⟩

/-- C8 (evaluation at the failing input).  `extractDocumentTitle` claims
to walk parent references toward a titled root, but the loop steps into
`current.children.find((c) => c.id === node.id)`: for a non-root node
whose tree root carries a title it therefore returns the placeholder
`Unknown Document`, while a titled root queried directly returns its own
title. -/
theorem extractDocumentTitle_misses_titled_root :
    c8Root.type = NodeType.root ∧ c8Root.title = some (str "My Document") ∧
      c8Root.children = [c8Child] ∧ c8Child.type = NodeType.«section» ∧
      extractDocumentTitle c8Child = str "Unknown Document" ∧
      extractDocumentTitle c8Root = str "My Document" :=
  ⟨rfl, rfl, rfl, rfl, by decide, by decide⟩

/-- C3.  The PDF page-splitting strategies are attempted in priority
order: a text containing a form-feed marker is split on the markers for
every declared page count (so the equal-slice strategy is never used even
when the page count exceeds 1); without markers a page count above 1
selects the equal slices; otherwise the chapter patterns run, followed by
the mechanical 5000-character re-split exactly when a single oversized
segment remains. -/
theorem pdf_strategy_priority (text : Str) (n : Nat) :
    (strContains text (str "\x0c") = true →
      pdfPageTexts text n = splitOnCharJs '\x0c' text) ∧
    (strContains text (str "\x0c") = false → 1 < n →
      pdfPageTexts text n = equalSlices text n) ∧
    (strContains text (str "\x0c") = false → ¬ 1 < n →
      pdfPageTexts text n =
        (if (chapterSplit text).length = 1 ∧
            5000 < ((chapterSplit text).headD []).length
         then resplit5000 text else chapterSplit text)) := by
  refine ⟨fun hff => ?_, fun hff hn => ?_, fun hff hn => ?_⟩
  · have hlen := splitOnCharJs_two_le_of_contains (s := text) (c := '\x0c') (by
      simpa [str] using hff)
    simp only [pdfPageTexts, hff, if_true, if_pos rfl]
    rw [if_neg]
    rintro ⟨h1, -⟩
    omega
  · simp only [pdfPageTexts, hff, Bool.false_eq_true, if_false, if_pos hn]
    rw [if_neg]
    rintro ⟨h1, -⟩
    rw [equalSlices_length] at h1
    omega
  · simp [pdfPageTexts, hff, hn]

/-- Witness for C3: a text with one form-feed splits into its two pages
for the (contradictory) declared page count 5. -/
theorem pdf_strategy_priority_witness :
    strContains (str "one\x0ctwo") (str "\x0c") = true ∧
      pdfPageTexts (str "one\x0ctwo") 5 = splitOnCharJs '\x0c' (str "one\x0ctwo") ∧
      splitOnCharJs '\x0c' (str "one\x0ctwo") = [str "one", str "two"] :=
  ⟨by decide, (pdf_strategy_priority (str "one\x0ctwo") 5).1 (by decide), by decide⟩

theorem attachTo_level (acc e : MDEntry) : (attachTo acc e).level = e.level := rfl

theorem dropWhile_eq_self_of_takeWhile_nil {p : MDEntry → Bool} {s : List MDEntry}
    (h : s.takeWhile p = []) : s.dropWhile p = s := by
  cases s with
  | nil => rfl
  | cons a t =>
    rw [List.takeWhile_cons] at h
    by_cases hpa : p a
    · simp [hpa] at h
    · simp [List.dropWhile_cons, hpa]

/-- The pop loop removes exactly the maximal run of stack entries whose
level is at least the new heading's level, and changes no level below. -/
theorem collapseWhile_levels (lvl : Nat) (s : List MDEntry) :
    (collapseWhile lvl s).map MDEntry.level =
      (s.map MDEntry.level).dropWhile (fun l => decide (lvl ≤ l)) := by
  have hdw : (s.map MDEntry.level).dropWhile (fun l => decide (lvl ≤ l)) =
      (s.dropWhile (fun e => decide (lvl ≤ e.level))).map MDEntry.level := by
    rw [List.dropWhile_map]
    rfl
  rw [hdw]
  unfold collapseWhile
  rcases htw : s.takeWhile (fun e => decide (lvl ≤ e.level)) with _ | ⟨a, as⟩
  · simp only [htw]
    rw [dropWhile_eq_self_of_takeWhile_nil htw]
  · rcases hdw2 : s.dropWhile (fun e => decide (lvl ≤ e.level)) with _ | ⟨f, rs⟩
    · simp [htw, hdw2]
    · simp [htw, hdw2, attachTo_level]

/-- C2.  On the scenario input the Markdown parser produces a root with
exactly the two level-1 sections `A` and `C`, the level-2 section `B`
nested under `A`, and one paragraph (`text1`, `text2`, `text3`) under each
of `A`, `B`, `C`; and in general a heading of level `L` pops the stack
exactly while the top's level is `≥ L`, so the new heading attaches under
the nearest strictly shallower ancestor. -/
theorem markdown_heading_nesting :
    (∀ (lvl : Nat) (s : List MDEntry),
      (collapseWhile lvl s).map MDEntry.level =
        (s.map MDEntry.level).dropWhile (fun l => decide (lvl ≤ l))) ∧
    nodeView mdScenarioTree = (NodeType.root, none, mdScenarioInput, 0) ∧
    mdScenarioTree.children.map nodeView =
      [(NodeType.«section», some (str "A"), str "# A", 1),
       (NodeType.«section», some (str "C"), str "# C", 1)] ∧
    mdScenarioTree.children.map (fun c => c.children.map nodeView) =
      [[(NodeType.paragraph, none, str "text1", 2),
        (NodeType.«section», some (str "B"), str "## B", 2)],
       [(NodeType.paragraph, none, str "text3", 2)]] ∧
    mdScenarioTree.children.map
        (fun c => c.children.map (fun d => d.children.map nodeView)) =
      [[[], [(NodeType.paragraph, none, str "text2", 3)]], [[]]] ∧
    mdScenarioTree.children.map
        (fun c => c.children.map (fun d => d.children.map
          (fun k => k.children.length))) =
      [[[], [0]], [[]]] :=
  ⟨collapseWhile_levels, by decide, by decide, by decide, by decide, by decide⟩

theorem pushChildNode_id (p c : DocumentNode) : (pushChildNode p c).id = p.id := by
  cases p
  rfl

theorem attachTo_node_id (acc e : MDEntry) :
    (attachTo acc e).node.id = e.node.id := by
  simp [attachTo, pushChildNode_id]

theorem foldl_attachTo_id (ps : List MDEntry) : ∀ p : MDEntry,
    ((ps.foldl attachTo p).node).id =
      (match ps.getLast? with
       | some e => e.node.id
       | none => p.node.id) := by
  induction ps with
  | nil => intro p; rfl
  | cons e t ih =>
    intro p
    rw [List.foldl_cons, ih]
    cases t with
    | nil => simp [attachTo_node_id]
    | cons b t' =>
      rcases hgl : (b :: t').getLast? with _ | y
      · rw [List.getLast?_eq_none_iff] at hgl
        cases hgl
      · simp [hgl]

theorem dropWhile_concat_last {α : Type} (p : α → Bool) :
    ∀ (pre : List α) (e0 : α), p e0 = false →
      ∃ pre', (pre ++ [e0]).dropWhile p = pre' ++ [e0] := by
  intro pre
  induction pre with
  | nil =>
    intro e0 hpe
    exact ⟨[], by simp [List.dropWhile, hpe]⟩
  | cons a t ih =>
    intro e0 hpe
    by_cases hpa : p a
    · obtain ⟨pre', hp⟩ := ih e0 hpe
      exact ⟨pre', by simp [List.dropWhile_cons, hpa, hp]⟩
    · exact ⟨a :: t, by simp [List.dropWhile_cons, hpa]⟩

theorem stackOk_cons (x : MDEntry) {s : List MDEntry} (h : StackOk s) :
    StackOk (x :: s) := by
  obtain ⟨pre, e0, hs, hid, hlv⟩ := h
  exact ⟨x :: pre, e0, by simp [hs], hid, hlv⟩

theorem stackOk_modify_head {top mod : MDEntry} {rest : List MDEntry}
    (h : StackOk (top :: rest)) (hid : mod.node.id = top.node.id)
    (hlv : mod.level = top.level) : StackOk (mod :: rest) := by
  obtain ⟨pre, e0, hs, hid0, hlv0⟩ := h
  cases pre with
  | nil =>
    simp only [List.nil_append, List.cons.injEq] at hs
    exact ⟨[], mod, by simp [hs.2], by rw [hid, hs.1, hid0],
      by rw [hlv, hs.1, hlv0]⟩
  | cons y pre' =>
    simp only [List.cons_append, List.cons.injEq] at hs
    exact ⟨mod :: pre', e0, by simp [hs.2], hid0, hlv0⟩

theorem collapseWhile_stackOk {lvl : Nat} (hlvl : 1 ≤ lvl) {s : List MDEntry}
    (h : StackOk s) : StackOk (collapseWhile lvl s) := by
  obtain ⟨pre, e0, hs, hid, hlv⟩ := h
  subst hs
  have hpe : (fun e => decide (lvl ≤ e.level)) e0 = false := by
    simp only [decide_eq_false_iff_not]
    omega
  unfold collapseWhile
  rcases htw : (pre ++ [e0]).takeWhile (fun e => decide (lvl ≤ e.level)) with _ | ⟨a, as⟩
  · simp only [htw]
    exact ⟨pre, e0, rfl, hid, hlv⟩
  · obtain ⟨pre', hdw⟩ :=
      dropWhile_concat_last (fun e => decide (lvl ≤ e.level)) pre e0 hpe
    cases pre' with
    | nil =>
      simp only [htw, hdw, List.nil_append]
      exact ⟨[], attachTo (as.foldl attachTo a) e0,
        rfl, by rw [attachTo_node_id]; exact hid, by rw [attachTo_level]; exact hlv⟩
    | cons x pre'' =>
      simp only [htw, hdw, List.cons_append]
      exact ⟨attachTo (as.foldl attachTo a) x :: pre'', e0, rfl, hid, hlv⟩

theorem headingMatch_pos {line : Str} {lvl : Nat} {t : Str}
    (h : headingMatch line = some (lvl, t)) : 1 ≤ lvl := by
  simp only [headingMatch] at h
  split_ifs at h with hc
  simp only [Option.some.injEq, Prod.mk.injEq] at h
  omega

theorem mdFlush_stackOk (now : Nat) (st : MDState) (h : StackOk st.stack) :
    StackOk (mdFlush now st).stack := by
  unfold mdFlush
  split
  · exact h
  · split
    · exact h
    · next top rest heq =>
      rw [heq] at h
      exact stackOk_modify_head h (pushChildNode_id _ _) rfl

theorem mdStep_stackOk (now : Nat) (st : MDState) (line : Str)
    (h : StackOk st.stack) : StackOk (mdStep now st line).stack := by
  unfold mdStep
  cases hm : headingMatch line with
  | none => exact h
  | some pr =>
    cases pr with
    | mk lvl title =>
      exact stackOk_cons _
        (collapseWhile_stackOk (headingMatch_pos hm) (mdFlush_stackOk now st h))

theorem foldl_mdStep_stackOk (now : Nat) :
    ∀ (lines : List Str) (st : MDState), StackOk st.stack →
      StackOk ((lines.foldl (mdStep now) st).stack)
  | [], _, h => h
  | l :: ls, st, h =>
    foldl_mdStep_stackOk now ls (mdStep now st l) (mdStep_stackOk now st l h)

theorem collapseAll_rootId {s : List MDEntry} (h : StackOk s) :
    ∃ e, collapseAll s = [e] ∧ e.node.id = str "root" := by
  obtain ⟨pre, e0, hs, hid, hlv⟩ := h
  cases s with
  | nil =>
    exact absurd hs.symm (List.append_ne_nil_of_right_ne_nil pre (by simp))
  | cons p ps =>
    refine ⟨ps.foldl attachTo p, rfl, ?_⟩
    rw [foldl_attachTo_id]
    rcases hgl : ps.getLast? with _ | y
    · rw [List.getLast?_eq_none_iff] at hgl
      subst hgl
      have hpre : pre = [] := by
        cases pre with
        | nil => rfl
        | cons a t =>
          simp only [List.cons_append, List.cons.injEq] at hs
          obtain ⟨-, h2⟩ := hs
          simp at h2
      subst hpre
      simp only [List.nil_append, List.cons.injEq] at hs
      rw [hs.1]
      exact hid
    · have hy : (p :: ps).getLast? = some y := by
        cases ps with
        | nil => cases hgl
        | cons b t => rw [List.getLast?_cons_cons]; exact hgl
      rw [hs, List.getLast?_concat] at hy
      obtain rfl : e0 = y := Option.some.inj hy
      exact hid

theorem parseMarkdownTree_root_id (now : Nat) (content : Str) :
    (parseMarkdownTree now content).id = str "root" := by
  obtain ⟨e, he, hid⟩ := collapseAll_rootId
    (mdFlush_stackOk now
      ((splitOnCharJs '\n' content).foldl (mdStep now)
        { stack := [⟨DocumentNode.mk (str "root") NodeType.root none content 0 none
            [] ⟨content.length, (splitWsJs content).length, 0⟩, 0⟩],
          currentContent := [], position := 0 })
      (foldl_mdStep_stackOk now (splitOnCharJs '\n' content)
        { stack := [⟨DocumentNode.mk (str "root") NodeType.root none content 0 none
            [] ⟨content.length, (splitWsJs content).length, 0⟩, 0⟩],
          currentContent := [], position := 0 }
        ⟨[], _, rfl, rfl, rfl⟩))
  simp only [parseMarkdownTree]
  rw [he]
  exact hid

theorem htmlHeadingLevel_pos {tag : Str} {l : Nat}
    (h : htmlHeadingLevel tag = some l) : 1 ≤ l := by
  unfold htmlHeadingLevel at h
  split_ifs at h <;> simp only [Option.some.injEq] at h <;> omega

theorem htmlStep_stackOk (now : Nat) (st : HtmlState) (el : Str × Str)
    (h : StackOk st.stack) : StackOk (htmlStep now st el).stack := by
  simp only [htmlStep]
  by_cases hemp : (jsTrim el.2).isEmpty
  · simp only [hemp, if_true]
    exact h
  · simp only [hemp, Bool.false_eq_true, if_false]
    cases hm : htmlHeadingLevel el.1 with
    | some lvl =>
      exact stackOk_cons _ (collapseWhile_stackOk (htmlHeadingLevel_pos hm) h)
    | none =>
      by_cases hpd : el.1 = str "p" ∨ el.1 = str "div"
      · simp only [hpd, if_true]
        rcases hst : st.stack with _ | ⟨top, rest⟩
        · simp only [hst]
          rw [hst] at h
          exact h
        · simp only [hst]
          rw [hst] at h
          exact stackOk_modify_head h (pushChildNode_id _ _) rfl
      · simp only [hpd, if_false]
        exact h

theorem foldl_htmlStep_stackOk (now : Nat) :
    ∀ (els : List (Str × Str)) (st : HtmlState), StackOk st.stack →
      StackOk ((els.foldl (htmlStep now) st).stack)
  | [], _, h => h
  | e :: es, st, h =>
    foldl_htmlStep_stackOk now es (htmlStep now st e) (htmlStep_stackOk now st e h)

theorem parseHTMLTree_root_id (now : Nat) (fullText : Str)
    (elements : List (Str × Str)) :
    (parseHTMLTree now fullText elements).id = str "root" := by
  obtain ⟨e, he, hid⟩ := collapseAll_rootId
    (foldl_htmlStep_stackOk now elements
      { stack := [⟨DocumentNode.mk (str "root") NodeType.root none fullText 0 none
          [] ⟨fullText.length, (splitWsJs fullText).length, 0⟩, 0⟩],
        position := 0 }
      ⟨[], _, rfl, rfl, rfl⟩)
  simp only [parseHTMLTree]
  rw [he]
  exact hid

theorem findNodeById_first_root (d1 : DocumentNode) (rest : List DocumentNode)
    (h : d1.id = str "root") :
    findNodeById (d1 :: rest) (str "root") = some d1 := by
  cases d1 with
  | mk i t ti c l p ch m =>
    simp only [DocumentNode.id] at h
    simp [findNodeById, findInNode, h]

/-- C10.  Every tree produced by the four parsers has the literal root id
`root`; consequently in a forest of two or more documents the identifier
is shared, and pre-order resolution of `root` always returns the first
document's root, whichever document was intended. -/
theorem parsers_share_literal_root_id :
    (∀ now content, (parseMarkdownTree now content).id = str "root") ∧
    (∀ now content, (parseTextTree now content).id = str "root") ∧
    (∀ now fullText elements, (parseHTMLTree now fullText elements).id = str "root") ∧
    (∀ text n, (parsePDFTree text n).id = str "root") ∧
    (∀ (d1 : DocumentNode) (rest : List DocumentNode), d1.id = str "root" →
      findNodeById (d1 :: rest) (str "root") = some d1) :=
  ⟨parseMarkdownTree_root_id, fun _ _ => rfl, parseHTMLTree_root_id,
    fun _ _ => rfl, findNodeById_first_root⟩

/-- Witness for C10: in a two-document forest, resolving `root` returns
the first document's root. -/
theorem parsers_share_literal_root_id_witness :
    (parseTextTree 0 (str "hi")).id = str "root" ∧
      findNodeById [parseTextTree 0 (str "hi"), parseMarkdownTree 0 (str "# T")]
        (str "root") = some (parseTextTree 0 (str "hi")) :=
  ⟨rfl, parsers_share_literal_root_id.2.2.2.2 (parseTextTree 0 (str "hi"))
    [parseMarkdownTree 0 (str "# T")] rfl⟩

theorem isPrefixOf_append_self : ∀ (a s : Str), a.isPrefixOf (a ++ s) = true
  | [], _ => by simp [List.isPrefixOf]
  | c :: t, s => by
    simp only [List.cons_append, List.isPrefixOf_cons₂_self]
    exact isPrefixOf_append_self t s

theorem strContains_of_chunkIn {a b : Str} (h : ChunkIn a b) :
    strContains b a = true := by
  obtain ⟨p, q, rfl⟩ := h
  induction p with
  | nil =>
    rw [List.nil_append]
    cases haq : a ++ q with
    | nil =>
      have ha : a = [] := by
        cases a with
        | nil => rfl
        | cons x xs => cases haq
      subst ha
      simp [strContains, List.isPrefixOf]
    | cons c t =>
      simp only [strContains]
      rw [← haq, isPrefixOf_append_self]
      rfl
  | cons c p' ih =>
    rw [List.append_assoc] at ih
    simp only [List.cons_append, strContains]
    simp only [Bool.or_eq_true, List.isPrefixOf_iff_prefix]
    exact Or.inr (by simpa using ih)

theorem chunkIn_self (a p q : Str) : ChunkIn a (p ++ a ++ q) := ⟨p, q, rfl⟩

theorem chunkIn_trans {a b c : Str} (h1 : ChunkIn a b) (h2 : ChunkIn b c) :
    ChunkIn a c := by
  obtain ⟨p1, q1, rfl⟩ := h1
  obtain ⟨p2, q2, rfl⟩ := h2
  exact ⟨p2 ++ p1, q1 ++ q2, by simp [List.append_assoc]⟩

theorem chunkIn_append_right {a b : Str} (c : Str) (h : ChunkIn a b) :
    ChunkIn a (b ++ c) := by
  obtain ⟨p, q, rfl⟩ := h
  exact ⟨p, q ++ c, by simp [List.append_assoc]⟩

theorem chunkIn_append_left {a c : Str} (b : Str) (h : ChunkIn a c) :
    ChunkIn a (b ++ c) := by
  obtain ⟨p, q, rfl⟩ := h
  exact ⟨b ++ p, q, by simp [List.append_assoc]⟩

theorem mem_preorderForest_split :
    ∀ (docs : List DocumentNode) (n : DocumentNode), n ∈ preorderForest docs →
      ∃ d, d ∈ docs ∧ n ∈ d.preorder := by
  intro docs
  induction docs with
  | nil => intro n hn; rw [preorderForest] at hn; cases hn
  | cons d rest ih =>
    intro n hn
    rw [preorderForest] at hn
    rcases List.mem_append.mp hn with hL | hR
    · exact ⟨d, List.mem_cons_self d rest, hL⟩
    · obtain ⟨d', hd', hnd'⟩ := ih n hR
      exact ⟨d', List.mem_cons_of_mem d hd', hnd'⟩

mutual
theorem findInNode_isSome_of_mem : ∀ (d n : DocumentNode), n ∈ d.preorder →
    (findInNode d n.id).isSome = true
  | .mk i t ti c l p ch m, n, hn => by
    rw [DocumentNode.preorder] at hn
    rw [findInNode]
    rcases List.mem_cons.mp hn with rfl | hmem
    · simp [DocumentNode.id]
    · by_cases hid : i = n.id
      · simp [hid]
      · simp only [if_neg hid]
        exact findNodeById_isSome_of_mem ch n hmem

theorem findNodeById_isSome_of_mem :
    ∀ (docs : List DocumentNode) (n : DocumentNode),
      n ∈ preorderForest docs → (findNodeById docs n.id).isSome = true
  | [], n, hn => by rw [preorderForest] at hn; cases hn
  | d :: rest, n, hn => by
    rw [preorderForest] at hn
    rw [findNodeById]
    rcases List.mem_append.mp hn with hL | hR
    · have hs := findInNode_isSome_of_mem d n hL
      rcases hf : findInNode d n.id with _ | found
      · rw [hf] at hs; cases hs
      · simp [hf]
    · rcases hf : findInNode d n.id with _ | found
      · simp only [hf]
        exact findNodeById_isSome_of_mem rest n hR
      · simp [hf]
end

mutual
theorem flattenNode_tag_chunk : ∀ (d : DocumentNode) (depth : Nat)
    (n : DocumentNode), n ∈ d.preorder →
      ChunkIn (idTag n.id) (flattenNode d depth)
  | .mk i t ti c l p ch m, depth, n, hn => by
    rw [DocumentNode.preorder] at hn
    rw [flattenNode.eq_def]
    rcases List.mem_cons.mp hn with rfl | hmem
    · refine ⟨(List.replicate depth (str "  ")).flatten,
        (match ti with
         | some title => str " " ++ List.replicate l '#' ++ str " " ++ title ++ str "\n"
         | none => str "\n") ++
        ((List.replicate depth (str "  ")).flatten ++ (c.take 500 ++
          ((if 500 < c.length then str "..." else []) ++
            (str "\n" ++ flattenChildren ch (depth + 1))))), ?_⟩
      simp only [idTag, DocumentNode.id, List.append_assoc]
      cases ti <;> simp [List.append_assoc]
    · exact chunkIn_append_left _ (flattenChildren_tag_chunk ch (depth + 1) n hmem)

theorem flattenChildren_tag_chunk : ∀ (ch : List DocumentNode) (depth : Nat)
    (n : DocumentNode), n ∈ preorderForest ch →
      ChunkIn (idTag n.id) (flattenChildren ch depth)
  | [], _, n, hn => by rw [preorderForest] at hn; cases hn
  | d :: rest, depth, n, hn => by
    rw [preorderForest] at hn
    rw [flattenChildren]
    rcases List.mem_append.mp hn with hL | hR
    · exact chunkIn_append_right _ (flattenNode_tag_chunk d depth n hL)
    · exact chunkIn_append_left _ (flattenChildren_tag_chunk rest depth n hR)
end

theorem chunkIn_joinWith (sep : Str) :
    ∀ (parts : List Str) (x : Str), x ∈ parts → ChunkIn x (joinWith sep parts)
  | [], x, hx => by cases hx
  | [y], x, hx => by
    obtain rfl : x = y := List.mem_singleton.mp hx
    exact ⟨[], [], by simp [joinWith]⟩
  | y :: z :: rest, x, hx => by
    rw [joinWith]
    rcases List.mem_cons.mp hx with rfl | hx'
    · exact ⟨[], sep ++ joinWith sep (z :: rest), by simp [List.append_assoc]⟩
    · exact chunkIn_append_left (y ++ sep)
        (chunkIn_joinWith sep (z :: rest) x hx')

/-- C6.  Every node identifier the context serializer emits (each node of
the forest contributes its `[ID: …]` tag to `buildSearchContext`'s output)
resolves successfully when looked up by `findNodeById` against the same
forest. -/
theorem serializer_ids_resolve (docs : List DocumentNode) (q : SearchQuery)
    (n : DocumentNode) (hn : n ∈ preorderForest docs) :
    (findNodeById docs n.id).isSome = true ∧
      strContains (buildSearchContext docs q) (idTag n.id) = true := by
  refine ⟨findNodeById_isSome_of_mem docs n hn, ?_⟩
  obtain ⟨d, hd, hnd⟩ := mem_preorderForest_split docs n hn
  have h1 : ChunkIn (idTag n.id) (flattenNode d 0) := flattenNode_tag_chunk d 0 n hnd
  have h2 : ChunkIn (flattenNode d 0) (buildSearchContext docs q) := by
    unfold buildSearchContext
    exact chunkIn_joinWith _ _ _ (List.mem_map_of_mem _ hd)
  exact strContains_of_chunkIn (chunkIn_trans h1 h2)

/-- Witness for C6: the single node of a one-document forest is emitted
and resolves. -/
theorem serializer_ids_resolve_witness :
    (findNodeById [wNode] wNode.id).isSome = true ∧
      strContains (buildSearchContext [wNode] ⟨str "q", none, none, none⟩)
        (idTag wNode.id) = true :=
  serializer_ids_resolve [wNode] ⟨str "q", none, none, none⟩ wNode
    (by simp [preorderForest, wNode, DocumentNode.preorder])

mutual
theorem searchInNode_eq (kws : List Str) : ∀ d : DocumentNode,
    searchInNode kws d = d.preorder.filterMap (scoreEntry kws)
  | .mk i t ti c l p ch m => by
    rw [searchInNode, DocumentNode.preorder, List.filterMap_cons,
      searchNodes_eq kws ch]
    cases scoreEntry kws (.mk i t ti c l p ch m) <;> simp

theorem searchNodes_eq (kws : List Str) :
    ∀ docs : List DocumentNode,
      searchNodes kws docs = (preorderForest docs).filterMap (scoreEntry kws)
  | [] => by rw [searchNodes, preorderForest]; rfl
  | d :: rest => by
    rw [searchNodes, preorderForest, List.filterMap_append,
      searchInNode_eq kws d, searchNodes_eq kws rest]
end

theorem orderedInsertDesc_perm (a : SearchResult) :
    ∀ l, List.Perm (orderedInsertDesc a l) (a :: l)
  | [] => List.Perm.refl _
  | b :: t => by
    rw [orderedInsertDesc]
    split
    · exact List.Perm.refl _
    · exact ((orderedInsertDesc_perm a t).cons b).trans (List.Perm.swap a b t)

theorem insertionSortDesc_perm : ∀ l, List.Perm (insertionSortDesc l) l
  | [] => List.Perm.refl _
  | a :: t => (orderedInsertDesc_perm a _).trans ((insertionSortDesc_perm t).cons a)

theorem orderedInsertDesc_sorted {a : SearchResult} :
    ∀ {l}, List.Pairwise relDesc l → List.Pairwise relDesc (orderedInsertDesc a l)
  | [], _ => by simp [orderedInsertDesc, relDesc]
  | b :: t, h => by
    rw [orderedInsertDesc]
    obtain ⟨hb, ht⟩ := List.pairwise_cons.mp h
    split
    · next hba =>
      refine List.pairwise_cons.mpr ⟨?_, h⟩
      intro x hx
      rcases List.mem_cons.mp hx with rfl | hxt
      · exact hba
      · exact le_trans (hb x hxt) hba
    · next hba =>
      refine List.pairwise_cons.mpr ⟨?_, orderedInsertDesc_sorted ht⟩
      intro x hx
      rcases List.mem_cons.mp ((orderedInsertDesc_perm a t).mem_iff.mp hx) with rfl | hxt
      · exact le_of_lt (lt_of_not_le hba)
      · exact hb x hxt

theorem insertionSortDesc_sorted : ∀ l, List.Pairwise relDesc (insertionSortDesc l)
  | [] => List.Pairwise.nil
  | a :: t => orderedInsertDesc_sorted (insertionSortDesc_sorted t)

theorem filter_orderedInsertDesc_eq (v : ℚ) (a : SearchResult) :
    ∀ l : List SearchResult,
      (orderedInsertDesc a l).filter (fun r => decide (r.relevance = v)) =
        if a.relevance = v
        then a :: l.filter (fun r => decide (r.relevance = v))
        else l.filter (fun r => decide (r.relevance = v))
  | [] => by
    by_cases hav : a.relevance = v <;>
      simp [orderedInsertDesc, List.filter_cons, hav]
  | b :: t => by
    rw [orderedInsertDesc]
    by_cases hba : b.relevance ≤ a.relevance
    · rw [if_pos hba]
      by_cases hav : a.relevance = v <;> simp [List.filter_cons, hav]
    · rw [if_neg hba]
      by_cases hav : a.relevance = v
      · have hbne : ¬(b.relevance = v) := by
          intro hbv
          exact hba (by rw [hbv, hav])
        simp [List.filter_cons, hbne, hav, filter_orderedInsertDesc_eq v a t]
      · simp [List.filter_cons, hav, filter_orderedInsertDesc_eq v a t]

theorem insertionSortDesc_filter (v : ℚ) : ∀ l : List SearchResult,
    (insertionSortDesc l).filter (fun r => decide (r.relevance = v)) =
      l.filter (fun r => decide (r.relevance = v))
  | [] => rfl
  | a :: t => by
    rw [insertionSortDesc, filter_orderedInsertDesc_eq,
      insertionSortDesc_filter v t, List.filter_cons]
    by_cases hav : a.relevance = v <;> simp [hav]

/-- C4.  The keyword scorer lower-cases the query and splits it on
whitespace; every node of the forest in reading order (roots included) is
kept exactly when its matched-keyword count is positive, scored
`matchCount / keywordCount`; the kept results are sorted by descending
relevance by a stable sort (a permutation that is sorted and preserves
the scan order inside every equal-relevance class) and truncated to
`maxResults` (10 when unspecified). -/
theorem fallbackSearch_keyword_scorer (docs : List DocumentNode) (q : SearchQuery) :
    fallbackSearch docs q =
      (insertionSortDesc ((preorderForest docs).filterMap
          (scoreEntry (splitWsJs (toLowerStr q.query))))).take
        (defaultedMaxResults q) ∧
    (∀ n : DocumentNode,
      scoreEntry (splitWsJs (toLowerStr q.query)) n =
        if 0 < scoreNode (splitWsJs (toLowerStr q.query)) n then
          some (mkSearchResult n
            ((scoreNode (splitWsJs (toLowerStr q.query)) n : ℚ) /
              ((splitWsJs (toLowerStr q.query)).length : ℚ)))
        else none) ∧
    List.Pairwise relDesc
      (insertionSortDesc ((preorderForest docs).filterMap
        (scoreEntry (splitWsJs (toLowerStr q.query))))) ∧
    List.Perm
      (insertionSortDesc ((preorderForest docs).filterMap
        (scoreEntry (splitWsJs (toLowerStr q.query)))))
      ((preorderForest docs).filterMap (scoreEntry (splitWsJs (toLowerStr q.query)))) ∧
    (∀ v : ℚ,
      (insertionSortDesc ((preorderForest docs).filterMap
          (scoreEntry (splitWsJs (toLowerStr q.query))))).filter
          (fun r => decide (r.relevance = v)) =
        ((preorderForest docs).filterMap
          (scoreEntry (splitWsJs (toLowerStr q.query)))).filter
          (fun r => decide (r.relevance = v))) := by
  refine ⟨?_, fun n => rfl, insertionSortDesc_sorted _, insertionSortDesc_perm _,
    fun v => insertionSortDesc_filter v _⟩
  rw [fallbackSearch, searchNodes_eq]

theorem jsSubstring_zero (s : Str) (b : Nat) : jsSubstring s 0 b = s.take b := by
  simp [jsSubstring]

/-- C7 (amended rule).  The excerpt is the content unchanged when it has
at most 200 characters; otherwise it is cut at the last space character at
a positive index at or before 200 when one exists, else hard-cut at 200,
with `...` appended; its length never exceeds 200 plus the marker's
length. -/
theorem excerpt_rule_amended (content : Str) :
    (content.length ≤ 200 → extractExcerpt content 200 = content) ∧
    (200 < content.length →
      (∀ k, lastSpacePos content 200 = some k →
        extractExcerpt content 200 = content.take k ++ str "...") ∧
      (lastSpacePos content 200 = none →
        extractExcerpt content 200 = content.take 200 ++ str "...")) ∧
    (extractExcerpt content 200).length ≤ 200 + (str "...").length := by
  refine ⟨?_, fun hlong => ⟨?_, ?_⟩, ?_⟩
  · intro hshort
    simp [extractExcerpt, hshort]
  · intro k hk
    by_cases hcond : 0 < Nat.findGreatest
        (fun i => 0 < i ∧ content.get? i = some ' ') 200 ∧
        content.get? (Nat.findGreatest
          (fun i => 0 < i ∧ content.get? i = some ' ') 200) = some ' '
    · have hkeq0 : Nat.findGreatest
          (fun i => 0 < i ∧ content.get? i = some ' ') 200 = k := by
        simp only [lastSpacePos] at hk
        rw [if_pos hcond] at hk
        injection hk
      obtain ⟨hkpos0, hksp0⟩ := hcond
      rw [hkeq0] at hkpos0 hksp0
      have hk200 : k ≤ 200 := hkeq0 ▸ Nat.findGreatest_le 200
      have hkk' : k ≤ Nat.findGreatest (fun i => content.get? i = some ' ') 200 :=
        Nat.le_findGreatest hk200 hksp0
      have hk'sp : content.get? (Nat.findGreatest
          (fun i => content.get? i = some ' ') 200) = some ' ' :=
        Nat.findGreatest_spec (P := fun i => content.get? i = some ' ') hk200 hksp0
      have hk'k : Nat.findGreatest (fun i => content.get? i = some ' ') 200 ≤ k :=
        hkeq0 ▸ Nat.le_findGreatest (Nat.findGreatest_le 200)
          ⟨lt_of_lt_of_le hkpos0 hkk', hk'sp⟩
      have hkeq : Nat.findGreatest (fun i => content.get? i = some ' ') 200 = k :=
        le_antisymm hk'k hkk'
      have hbp : jsLastIndexOfChar content ' ' 200 = (k : Int) := by
        simp only [jsLastIndexOfChar, hkeq, hksp0, if_pos]
      simp only [extractExcerpt, if_neg (not_le.mpr hlong), hbp]
      rw [if_pos (by exact_mod_cast hkpos0)]
      rw [show ((k : Int)).toNat = k from rfl, jsSubstring_zero]
    · simp only [lastSpacePos] at hk
      rw [if_neg hcond] at hk
      cases hk
  · intro hnone
    by_cases hcond : 0 < Nat.findGreatest
        (fun i => 0 < i ∧ content.get? i = some ' ') 200 ∧
        content.get? (Nat.findGreatest
          (fun i => 0 < i ∧ content.get? i = some ' ') 200) = some ' '
    · simp only [lastSpacePos] at hnone
      rw [if_pos hcond] at hnone
      cases hnone
    · by_cases hsp : content.get? (Nat.findGreatest
          (fun i => content.get? i = some ' ') 200) = some ' '
      · have hk'0 : Nat.findGreatest (fun i => content.get? i = some ' ') 200 = 0 := by
          by_contra hne
          have hk'pos : 0 < Nat.findGreatest
              (fun i => content.get? i = some ' ') 200 := Nat.pos_of_ne_zero hne
          have hkk : Nat.findGreatest (fun i => content.get? i = some ' ') 200 ≤
              Nat.findGreatest (fun i => 0 < i ∧ content.get? i = some ' ') 200 :=
            Nat.le_findGreatest (Nat.findGreatest_le 200) ⟨hk'pos, hsp⟩
          have hsp2 := Nat.findGreatest_spec
            (P := fun i => 0 < i ∧ content.get? i = some ' ')
            (Nat.findGreatest_le 200) ⟨hk'pos, hsp⟩
          exact hcond ⟨lt_of_lt_of_le hk'pos hkk, hsp2.2⟩
        have hbp : jsLastIndexOfChar content ' ' 200 = ((0 : Nat) : Int) := by
          simp only [jsLastIndexOfChar, hk'0]
          rw [hk'0] at hsp
          rw [if_pos hsp]
        simp only [extractExcerpt, if_neg (not_le.mpr hlong), hbp]
        rw [if_neg (by decide), jsSubstring_zero]
      · have hbp : jsLastIndexOfChar content ' ' 200 = -1 := by
          simp only [jsLastIndexOfChar]
          rw [if_neg hsp]
        simp only [extractExcerpt, if_neg (not_le.mpr hlong), hbp]
        rw [if_neg (by decide), jsSubstring_zero]
  · by_cases hshort : content.length ≤ 200
    · simp only [extractExcerpt, if_pos hshort]
      omega
    · simp only [extractExcerpt, if_neg hshort]
      rw [jsSubstring_zero, List.length_append]
      have hble : (if 0 < jsLastIndexOfChar content ' ' 200 then
          (jsLastIndexOfChar content ' ' 200).toNat else 200) ≤ 200 := by
        split
        · simp only [jsLastIndexOfChar]
          split
          · have := Nat.findGreatest_le
              (P := fun i => content.get? i = some ' ') 200
            omega
          · omega
        · omega
      have htk := List.length_take_le (if 0 < jsLastIndexOfChar content ' ' 200 then
        (jsLastIndexOfChar content ' ' 200).toNat else 200) content
      omega

/-- C7 counterexample.  On a long content whose only whitespace at or
before index 200 is a tab, the claimed whitespace rule cuts at the tab but
the code's space-only `lastIndexOf(" ", …)` finds nothing and hard-cuts at
200: the two rules produce different excerpts. -/
theorem excerpt_whitespace_rule_refuted :
    (200 : Nat) < c7TabContent.length ∧
      (c7TabContent.get? 100).any jsWs = true ∧
      extractExcerpt c7TabContent 200 = c7TabContent.take 200 ++ str "..." ∧
      claimedWhitespaceExcerpt c7TabContent 200 = c7TabContent.take 100 ++ str "..." ∧
      extractExcerpt c7TabContent 200 ≠ claimedWhitespaceExcerpt c7TabContent 200 :=
  ⟨by decide, by decide, by decide, by decide, by decide⟩

/-- Witness for the amended excerpt rule: a content with one space at
index 150 is soft-cut there. -/
theorem excerpt_rule_amended_witness :
    (200 : Nat) < c7SpaceContent.length ∧
      lastSpacePos c7SpaceContent 200 = some 150 ∧
      extractExcerpt c7SpaceContent 200 = c7SpaceContent.take 150 ++ str "..." :=
  ⟨by decide, by decide,
    ((excerpt_rule_amended c7SpaceContent).2.1 (by decide)).1 150 (by decide)⟩

/-- C5 counterexample.  On a two-paragraph document whose first paragraph
contains neither query word and whose second contains both, the keyword
search returns two results, not one: the synthetic root node's content is
the whole document, so the root also matches both words. -/
theorem keyword_scenario_two_results :
    c5Tree.children.map DocumentNode.content =
      [str "alpha beta", str "the second section here"] ∧
      c5Tree.children.map DocumentNode.type =
        [NodeType.paragraph, NodeType.paragraph] ∧
      strContains (toLowerStr (str "alpha beta")) (str "second") = false ∧
      strContains (toLowerStr (str "alpha beta")) (str "section") = false ∧
      strContains (toLowerStr (str "the second section here")) (str "second") = true ∧
      strContains (toLowerStr (str "the second section here")) (str "section") = true ∧
      (fallbackSearch [c5Tree] c5Query).length = 2 := by
  refine ⟨by decide, by decide, by decide, by decide, by decide, by decide, ?_⟩
  rw [fallbackSearch, List.length_take, (insertionSortDesc_perm _).length_eq]
  decide

theorem splitOnCharJs_cons_sep (sep : Char) (r : Str) :
    splitOnCharJs sep (sep :: r) = [] :: splitOnCharJs sep r := by
  rw [splitOnCharJs, if_pos rfl]

theorem splitOnCharJs_no_sep (sep : Char) :
    ∀ a : Str, a.all (fun c => !decide (c = sep)) = true →
      splitOnCharJs sep a = [a]
  | [], _ => rfl
  | c :: t, h => by
    rw [List.all_cons] at h
    obtain ⟨hc, ht⟩ := Bool.and_eq_true_iff.mp h
    have hc' : ¬(c = sep) := by simpa using hc
    rw [splitOnCharJs, if_neg hc', splitOnCharJs_no_sep sep t ht]

theorem splitOnCharJs_append_sep (sep : Char) :
    ∀ (a r : Str), a.all (fun c => !decide (c = sep)) = true →
      splitOnCharJs sep (a ++ sep :: r) = a :: splitOnCharJs sep r
  | [], r, _ => by
    rw [List.nil_append, splitOnCharJs_cons_sep]
  | c :: t, r, h => by
    rw [List.all_cons] at h
    obtain ⟨hc, ht⟩ := Bool.and_eq_true_iff.mp h
    have hc' : ¬(c = sep) := by simpa using hc
    rw [List.cons_append, splitOnCharJs, if_neg hc',
      splitOnCharJs_append_sep sep t r ht]

theorem jsTrim_append_ws (s : Str) (c : Char) (hc : jsWs c = true) :
    jsTrim (s ++ [c]) = jsTrim s := by
  unfold jsTrim
  rw [List.dropWhile_append]
  by_cases he : (s.dropWhile jsWs).isEmpty
  · rw [if_pos he]
    rw [List.isEmpty_iff] at he
    rw [he]
    simp [List.dropWhile, hc]
  · rw [if_neg he]
    rw [List.reverse_append]
    simp [List.dropWhile, hc]

theorem chunkIn_jsTrim (s : Str) : ChunkIn (jsTrim s) s := by
  refine ⟨s.takeWhile jsWs, ((s.dropWhile jsWs).reverse.takeWhile jsWs).reverse, ?_⟩
  conv_lhs => rw [← List.takeWhile_append_dropWhile (p := jsWs) (l := s)]
  rw [List.append_assoc]
  congr 1
  conv_lhs => rw [← List.reverse_reverse (s.dropWhile jsWs),
    ← List.takeWhile_append_dropWhile (p := jsWs) (l := (s.dropWhile jsWs).reverse)]
  rw [List.reverse_append]
  rw [jsTrim]

theorem chunkIn_map (f : Char → Char) {a b : Str} (h : ChunkIn a b) :
    ChunkIn (a.map f) (b.map f) := by
  obtain ⟨p, q, rfl⟩ := h
  exact ⟨p.map f, q.map f, by simp⟩

theorem chunkIn_of_strContains : ∀ {b a : Str}, strContains b a = true → ChunkIn a b
  | [], a, h => by
    rw [strContains] at h
    have ha : a = [] := by
      cases a with
      | nil => rfl
      | cons x xs => simp [List.isPrefixOf] at h
    exact ⟨[], [], by simp [ha]⟩
  | c :: t, a, h => by
    rw [strContains] at h
    rcases Bool.or_eq_true_iff.mp h with hp | hs
    · obtain ⟨u, hu⟩ := ( List.isPrefixOf_iff_prefix.mp hp)
      exact ⟨[], u, by rw [← hu]; simp⟩
    · exact chunkIn_append_left [c] (chunkIn_of_strContains hs)

/-- C5 (amended).  For a two-paragraph plain-text document whose first
paragraph contains neither word of the query `second section` and whose
second paragraph contains both, the keyword search returns exactly two
results, each with relevance 1.0: the synthetic root node (whose content
is the whole document text, hence also matches both words) first, and the
second paragraph second. -/
theorem keyword_two_paragraph_amended (now : Nat) (c1 c2 : Str)
    (hn1 : c1.all (fun c => !decide (c = '\n')) = true)
    (hn2 : c2.all (fun c => !decide (c = '\n')) = true)
    (ht1 : (jsTrim c1).isEmpty = false)
    (ht2 : (jsTrim c2).isEmpty = false)
    (h5 : strContains (toLowerStr (jsTrim c2)) (str "second") = true)
    (h6 : strContains (toLowerStr (jsTrim c2)) (str "section") = true)
    (h7 : strContains (toLowerStr (jsTrim c1)) (str "second") = false)
    (h8 : strContains (toLowerStr (jsTrim c1)) (str "section") = false) :
    (fallbackSearch [parseTextTree now (c1 ++ str "\n\n" ++ c2)]
        { query := str "second section" }).map SearchResult.relevance = [1, 1] ∧
    (fallbackSearch [parseTextTree now (c1 ++ str "\n\n" ++ c2)]
        { query := str "second section" }).map SearchResult.content =
      [c1 ++ str "\n\n" ++ c2, jsTrim c2] ∧
    (fallbackSearch [parseTextTree now (c1 ++ str "\n\n" ++ c2)]
        { query := str "second section" }).map (fun r => r.citation.nodeId) =
      [str "root", generateId now (str "paragraph-" ++ natStr (c1.length + 1))] ∧
    (fallbackSearch [parseTextTree now (c1 ++ str "\n\n" ++ c2)]
        { query := str "second section" }).length = 2 := by
  have hws : jsWs ' ' = true := rfl
  have ht1' : (jsTrim (c1 ++ [ ' ' ])).isEmpty = false := by
    rw [jsTrim_append_ws c1 ' ' hws]; exact ht1
  have ht2' : (jsTrim (c2 ++ [ ' ' ])).isEmpty = false := by
    rw [jsTrim_append_ws c2 ' ' hws]; exact ht2
  have hsplit : splitOnCharJs '\n' (c1 ++ str "\n\n" ++ c2) = [c1, [], c2] := by
    have h9 : c1 ++ str "\n\n" ++ c2 = c1 ++ ('\n' :: '\n' :: c2) := by
      rw [List.append_assoc]; rfl
    rw [h9, splitOnCharJs_append_sep '\n' c1 ('\n' :: c2) hn1,
      splitOnCharJs_cons_sep, splitOnCharJs_no_sep '\n' c2 hn2]
  have hstep1 : textStep now ⟨[], [], 0⟩ c1 = ⟨[], c1 ++ [ ' ' ], 0⟩ := by
    simp [textStep, ht1]
  have hstep2 : textStep now ⟨[], c1 ++ [ ' ' ], 0⟩ [] =
      ⟨[textParagraphNode now ⟨[], c1 ++ [ ' ' ], 0⟩], [], c1.length + 1⟩ := by
    have hcond : (jsTrim ([] : Str)).isEmpty = true := rfl
    simp only [textStep, hcond, if_true, ht1', Bool.false_eq_true, if_false,
      List.nil_append, List.length_append, List.length_cons, List.length_nil,
      Nat.zero_add]
  have hstep3 : textStep now
      ⟨[textParagraphNode now ⟨[], c1 ++ [ ' ' ], 0⟩], [], c1.length + 1⟩ c2 =
      ⟨[textParagraphNode now ⟨[], c1 ++ [ ' ' ], 0⟩], c2 ++ [ ' ' ], c1.length + 1⟩ := by
    simp [textStep, ht2]
  have htree : parseTextTree now (c1 ++ str "\n\n" ++ c2) =
      DocumentNode.mk (str "root") NodeType.root none (c1 ++ str "\n\n" ++ c2) 0 none
        [DocumentNode.mk (generateId now (str "paragraph-" ++ natStr 0))
           NodeType.paragraph none (jsTrim (c1 ++ [ ' ' ])) 1 none []
           ⟨(c1 ++ [ ' ' ]).length, (splitWsJs (c1 ++ [ ' ' ])).length, 0⟩,
         DocumentNode.mk (generateId now (str "paragraph-" ++ natStr (c1.length + 1)))
           NodeType.paragraph none (jsTrim (c2 ++ [ ' ' ])) 1 none []
           ⟨(c2 ++ [ ' ' ]).length, (splitWsJs (c2 ++ [ ' ' ])).length, c1.length + 1⟩]
        ⟨(c1 ++ str "\n\n" ++ c2).length, (splitWsJs (c1 ++ str "\n\n" ++ c2)).length, 0⟩ := by
    simp only [parseTextTree, hsplit, List.foldl_cons, List.foldl_nil,
      hstep1, hstep2, hstep3, ht2', Bool.false_eq_true, if_false]
    rfl
  have hp1a : strContains (toLowerStr (jsTrim (c1 ++ [ ' ' ]))) (str "second") = false := by
    rw [jsTrim_append_ws c1 ' ' hws]; exact h7
  have hp1b : strContains (toLowerStr (jsTrim (c1 ++ [ ' ' ]))) (str "section") = false := by
    rw [jsTrim_append_ws c1 ' ' hws]; exact h8
  have hp2a : strContains (toLowerStr (jsTrim (c2 ++ [ ' ' ]))) (str "second") = true := by
    rw [jsTrim_append_ws c2 ' ' hws]; exact h5
  have hp2b : strContains (toLowerStr (jsTrim (c2 ++ [ ' ' ]))) (str "section") = true := by
    rw [jsTrim_append_ws c2 ' ' hws]; exact h6
  have hker : ∀ kw : Str, strContains (toLowerStr (jsTrim c2)) kw = true →
      strContains (toLowerStr (c1 ++ str "\n\n" ++ c2)) kw = true := by
    intro kw hkw
    apply strContains_of_chunkIn
    have hk2 : ChunkIn kw (toLowerStr c2) :=
      chunkIn_trans (chunkIn_of_strContains hkw)
        (chunkIn_map Char.toLower (chunkIn_jsTrim c2))
    have hsplitmap : toLowerStr (c1 ++ str "\n\n" ++ c2) =
        toLowerStr (c1 ++ str "\n\n") ++ toLowerStr c2 := by
      simp [toLowerStr]
    rw [hsplitmap]
    exact chunkIn_append_left _ hk2
  have hr1 := hker (str "second") h5
  have hr2 := hker (str "section") h6
  have hkws : splitWsJs (toLowerStr (str "second section")) =
      [str "second", str "section"] := by decide
  have hq : ({ query := str "second section" } : SearchQuery).query =
      str "second section" := rfl
  have hmr : defaultedMaxResults ({ query := str "second section" } : SearchQuery) =
      10 := rfl
  have hrel : ∀ (n : DocumentNode), (mkSearchResult n 1).relevance = 1 :=
    fun _ => rfl
  have hseRoot : scoreEntry [str "second", str "section"]
      (DocumentNode.mk (str "root") NodeType.root none (c1 ++ str "\n\n" ++ c2) 0 none
        [DocumentNode.mk (generateId now (str "paragraph-" ++ natStr 0))
           NodeType.paragraph none (jsTrim (c1 ++ [ ' ' ])) 1 none []
           ⟨(c1 ++ [ ' ' ]).length, (splitWsJs (c1 ++ [ ' ' ])).length, 0⟩,
         DocumentNode.mk (generateId now (str "paragraph-" ++ natStr (c1.length + 1)))
           NodeType.paragraph none (jsTrim (c2 ++ [ ' ' ])) 1 none []
           ⟨(c2 ++ [ ' ' ]).length, (splitWsJs (c2 ++ [ ' ' ])).length, c1.length + 1⟩]
        ⟨(c1 ++ str "\n\n" ++ c2).length, (splitWsJs (c1 ++ str "\n\n" ++ c2)).length, 0⟩) =
      some (mkSearchResult
        (DocumentNode.mk (str "root") NodeType.root none (c1 ++ str "\n\n" ++ c2) 0 none
          [DocumentNode.mk (generateId now (str "paragraph-" ++ natStr 0))
             NodeType.paragraph none (jsTrim (c1 ++ [ ' ' ])) 1 none []
             ⟨(c1 ++ [ ' ' ]).length, (splitWsJs (c1 ++ [ ' ' ])).length, 0⟩,
           DocumentNode.mk (generateId now (str "paragraph-" ++ natStr (c1.length + 1)))
             NodeType.paragraph none (jsTrim (c2 ++ [ ' ' ])) 1 none []
             ⟨(c2 ++ [ ' ' ]).length, (splitWsJs (c2 ++ [ ' ' ])).length, c1.length + 1⟩]
          ⟨(c1 ++ str "\n\n" ++ c2).length,
            (splitWsJs (c1 ++ str "\n\n" ++ c2)).length, 0⟩) 1) := by
    have hsc : scoreNode [str "second", str "section"]
        (DocumentNode.mk (str "root") NodeType.root none (c1 ++ str "\n\n" ++ c2) 0 none
          [DocumentNode.mk (generateId now (str "paragraph-" ++ natStr 0))
             NodeType.paragraph none (jsTrim (c1 ++ [ ' ' ])) 1 none []
             ⟨(c1 ++ [ ' ' ]).length, (splitWsJs (c1 ++ [ ' ' ])).length, 0⟩,
           DocumentNode.mk (generateId now (str "paragraph-" ++ natStr (c1.length + 1)))
             NodeType.paragraph none (jsTrim (c2 ++ [ ' ' ])) 1 none []
             ⟨(c2 ++ [ ' ' ]).length, (splitWsJs (c2 ++ [ ' ' ])).length, c1.length + 1⟩]
          ⟨(c1 ++ str "\n\n" ++ c2).length,
            (splitWsJs (c1 ++ str "\n\n" ++ c2)).length, 0⟩) = 2 := by
      have hr1' : strContains (toLowerStr (c1 ++ (str "\n\n" ++ c2)))
          (str "second") = true := by
        rw [← List.append_assoc]; exact hr1
      have hr2' : strContains (toLowerStr (c1 ++ (str "\n\n" ++ c2)))
          (str "section") = true := by
        rw [← List.append_assoc]; exact hr2
      simp [scoreNode, DocumentNode.content, List.filter_cons, hr1', hr2']
    simp only [scoreEntry, hsc]
    norm_num [mkSearchResult]
  have hsePara1 : scoreEntry [str "second", str "section"]
      (DocumentNode.mk (generateId now (str "paragraph-" ++ natStr 0))
           NodeType.paragraph none (jsTrim (c1 ++ [ ' ' ])) 1 none []
           ⟨(c1 ++ [ ' ' ]).length, (splitWsJs (c1 ++ [ ' ' ])).length, 0⟩) = none := by
    have hsc : scoreNode [str "second", str "section"]
        (DocumentNode.mk (generateId now (str "paragraph-" ++ natStr 0))
           NodeType.paragraph none (jsTrim (c1 ++ [ ' ' ])) 1 none []
           ⟨(c1 ++ [ ' ' ]).length, (splitWsJs (c1 ++ [ ' ' ])).length, 0⟩) = 0 := by
      simp [scoreNode, DocumentNode.content, List.filter_cons, hp1a, hp1b]
    simp only [scoreEntry, hsc]
    norm_num
  have hsePara2 : scoreEntry [str "second", str "section"]
      (DocumentNode.mk (generateId now (str "paragraph-" ++ natStr (c1.length + 1)))
           NodeType.paragraph none (jsTrim (c2 ++ [ ' ' ])) 1 none []
           ⟨(c2 ++ [ ' ' ]).length, (splitWsJs (c2 ++ [ ' ' ])).length, c1.length + 1⟩) =
      some (mkSearchResult (DocumentNode.mk (generateId now (str "paragraph-" ++ natStr (c1.length + 1)))
           NodeType.paragraph none (jsTrim (c2 ++ [ ' ' ])) 1 none []
           ⟨(c2 ++ [ ' ' ]).length, (splitWsJs (c2 ++ [ ' ' ])).length, c1.length + 1⟩) 1) := by
    have hsc : scoreNode [str "second", str "section"]
        (DocumentNode.mk (generateId now (str "paragraph-" ++ natStr (c1.length + 1)))
           NodeType.paragraph none (jsTrim (c2 ++ [ ' ' ])) 1 none []
           ⟨(c2 ++ [ ' ' ]).length, (splitWsJs (c2 ++ [ ' ' ])).length, c1.length + 1⟩) = 2 := by
      simp [scoreNode, DocumentNode.content, List.filter_cons, hp2a, hp2b]
    simp only [scoreEntry, hsc]
    norm_num [mkSearchResult]
  have hres : fallbackSearch [parseTextTree now (c1 ++ str "\n\n" ++ c2)]
      { query := str "second section" } =
      [mkSearchResult (DocumentNode.mk (str "root") NodeType.root none (c1 ++ str "\n\n" ++ c2) 0 none
        [DocumentNode.mk (generateId now (str "paragraph-" ++ natStr 0))
           NodeType.paragraph none (jsTrim (c1 ++ [ ' ' ])) 1 none []
           ⟨(c1 ++ [ ' ' ]).length, (splitWsJs (c1 ++ [ ' ' ])).length, 0⟩,
         DocumentNode.mk (generateId now (str "paragraph-" ++ natStr (c1.length + 1)))
           NodeType.paragraph none (jsTrim (c2 ++ [ ' ' ])) 1 none []
           ⟨(c2 ++ [ ' ' ]).length, (splitWsJs (c2 ++ [ ' ' ])).length, c1.length + 1⟩]
        ⟨(c1 ++ str "\n\n" ++ c2).length, (splitWsJs (c1 ++ str "\n\n" ++ c2)).length, 0⟩) 1,
       mkSearchResult (DocumentNode.mk (generateId now (str "paragraph-" ++ natStr (c1.length + 1)))
           NodeType.paragraph none (jsTrim (c2 ++ [ ' ' ])) 1 none []
           ⟨(c2 ++ [ ' ' ]).length, (splitWsJs (c2 ++ [ ' ' ])).length, c1.length + 1⟩) 1] := by
    rw [htree, fallbackSearch, hq, hkws, hmr]
    simp only [searchNodes, searchInNode, hseRoot, hsePara1, hsePara2,
      Option.toList_some, Option.toList_none, List.nil_append, List.append_nil,
      List.singleton_append, List.cons_append]
    simp only [insertionSortDesc, orderedInsertDesc, hrel, le_refl, if_true]
    simp [List.take]
  refine ⟨?_, ?_, ?_, ?_⟩ <;> rw [hres]
  · simp [hrel]
  · have hcont : ∀ (n : DocumentNode) (r : ℚ),
        (mkSearchResult n r).content = n.content := fun _ _ => rfl
    simp only [List.map_cons, List.map_nil, hcont, DocumentNode.content]
    rw [jsTrim_append_ws c2 ' ' hws]
  · have hnid : ∀ (n : DocumentNode) (r : ℚ),
        (mkSearchResult n r).citation.nodeId = n.id := fun _ _ => rfl
    simp only [List.map_cons, List.map_nil, hnid, DocumentNode.id]
  · rfl

/-- Witness for the amended C5 theorem: the concrete document
`alpha beta\n\nthe second section here` queried for `second section`
yields exactly two results. -/
theorem keyword_two_paragraph_amended_witness :
    strContains (toLowerStr (jsTrim (str "the second section here"))) (str "second") = true ∧
    strContains (toLowerStr (jsTrim (str "alpha beta"))) (str "second") = false ∧
    (fallbackSearch [parseTextTree 0 (str "alpha beta" ++ str "\n\n" ++ str "the second section here")]
        { query := str "second section" }).length = 2 :=
  ⟨by decide, by decide,
   (keyword_two_paragraph_amended 0 (str "alpha beta") (str "the second section here")
      (by decide) (by decide) (by decide) (by decide)
      (by decide) (by decide) (by decide) (by decide)).2.2.2⟩
